import Mathlib

/-!
# Reference counting of `utils/RefBase.h`

A shallow embedding of the counting code of `include/utils/RefBase.h`:
the light-weight counter `LightRefBase<T>`, the strong handle `sp<T>` and
the weak handle `wp<T>`, and of `setArgv0` and `main` of
`cmds/app_process/app_main.cpp`.

* A pointer is a natural number, `0` is the null pointer.
* An `int32_t` is an `Int` kept in range with `wrap32`.
* A method that changes its receiver returns the receiver after the call.
* The calls a handle makes on its target are recorded, in order, in a log.
* The functions of RefBase.cpp that the handles call are parameters; where a
  statement is about what they do, they are modelled from the specification
  (`ReferenceBlock`).
* Threads are interleaved step by step by a schedule (`Race`).
-/

namespace RefBase

/-! ## Machine integers and the atomic primitives -/

/-- Smallest `int32_t`. -/
def INT32_MIN : Int := -2147483648

/-- Largest `int32_t`. -/
def INT32_MAX : Int := 2147483647

/-- Two's complement reduction of an integer to the `int32_t` range. -/
def wrap32 (x : Int) : Int := (x + 2147483648) % 4294967296 - 2147483648

/-- Modelled from the spec: `android_atomic_inc` of `cutils/atomic.h` is not
among the sources. It is the atomic increment of the counting engine: it adds
one to the 32-bit cell and returns the value the cell held before. The pair is
(value returned, value stored). -/
def android_atomic_inc (v : Int) : Int × Int := (v, wrap32 (v + 1))

/-- Modelled from the spec: `android_atomic_dec` of `cutils/atomic.h` is not
among the sources. It is the atomic decrement of the counting engine: it
subtracts one from the 32-bit cell and returns the value the cell held before
(the comment in `LightRefBase::decStrong` says the same). The pair is
(value returned, value stored). -/
def android_atomic_dec (v : Int) : Int × Int := (v, wrap32 (v - 1))

/-! ## `LightRefBase<T>` -/

/-- The state of a `LightRefBase<T>`: its only member `mCount`. -/
structure LightRefBase where
  mCount : Int
deriving DecidableEq

namespace LightRefBase

/-- The constructor `LightRefBase() : mCount(0)`. -/
def new : LightRefBase := ⟨0⟩

/-- The method `incStrong`: `android_atomic_inc(&mCount)`. -/
def incStrong (o : LightRefBase) : LightRefBase :=
  ⟨(android_atomic_inc o.mCount).2⟩

/-- The method `decStrong`:
`if (android_atomic_dec(&mCount) == 1) delete static_cast<const T*>(this)`.
The result is the counter after the call and whether `delete` ran. -/
def decStrong (o : LightRefBase) : LightRefBase × Bool :=
  let r := android_atomic_dec o.mCount
  (⟨r.2⟩, r.1 == 1)

/-- The method `getStrongCount`: `return mCount`. -/
def getStrongCount (o : LightRefBase) : Int := o.mCount

end LightRefBase

/-- One counting call made on a `LightRefBase` object. -/
inductive Call where
  | incStrong
  | decStrong
deriving DecidableEq

/-- One call on the object: the counter after it and whether `delete` ran. -/
def LightRefBase.call (o : LightRefBase) : Call → LightRefBase × Bool
  | .incStrong => (o.incStrong, false)
  | .decStrong => o.decStrong

/-- A sequence of calls made from one thread, in order: the counter after the
last call and, for each call, whether it ran `delete`. -/
def LightRefBase.calls (o : LightRefBase) : List Call → LightRefBase × List Bool
  | [] => (o, [])
  | c :: cs =>
    let r := o.call c
    let rs := LightRefBase.calls r.1 cs
    (rs.1, r.2 :: rs.2)

/-- Number of `incStrong` calls of a sequence. -/
def acquires (cs : List Call) : Nat := cs.count Call.incStrong

/-- Number of `decStrong` calls of a sequence. -/
def releases (cs : List Call) : Nat := cs.count Call.decStrong

/-- The object is still there after the calls `cs` on a fresh object: none of
them ran `delete`. -/
def notDeleted (cs : List Call) : Prop :=
  ∀ b ∈ (LightRefBase.new.calls cs).2, b = false

instance (cs : List Call) : Decidable (notDeleted cs) := by
  unfold notDeleted; infer_instance

/-- No call of `cs` is made on a deleted object: `delete` ran in none of the
calls before the last one. -/
def noCallAfterDelete (cs : List Call) : Prop :=
  ∀ b ∈ (LightRefBase.new.calls cs).2.dropLast, b = false

instance (cs : List Call) : Decidable (noCallAfterDelete cs) := by
  unfold noCallAfterDelete; infer_instance

/-- Every initial segment of `cs` has at least as many acquires as releases. -/
def neverOverReleased (cs : List Call) : Prop :=
  ∀ p ∈ cs.inits, releases p ≤ acquires p

instance (cs : List Call) : Decidable (neverOverReleased cs) := by
  unfold neverOverReleased; infer_instance

/-! ## Handles: pointers, the call log and the counted type -/

/-- A pointer is an address; `0` is the null pointer. -/
abbrev Ptr := Nat

/-- What a handle method does, in program order: the counting calls it makes on
a target (`p->incStrong(this)`, `p->decStrong(this)`,
`refs->attemptIncStrong(this)`, `p->forceIncStrong(this)`,
`p->createWeak(this)`, `refs->incWeak(this)`, `refs->decWeak(this)`) and its
writes of the members `m_ptr` (`store`) and `m_refs` (`storeRefs`). The `id`
argument `this` of the counting calls is left out: the counters ignore it. -/
inductive Event where
  | incStrong (p : Ptr)
  | decStrong (p : Ptr)
  | attemptIncStrong (refs : Ptr)
  | store (p : Ptr)
  | forceIncStrong (p : Ptr)
  | createWeak (p : Ptr)
  | incWeak (refs : Ptr)
  | decWeak (refs : Ptr)
  | storeRefs (refs : Ptr)
deriving DecidableEq

/-- The counting calls among the events. -/
def Event.isCountingCall : Event → Bool
  | .incStrong _ => true
  | .decStrong _ => true
  | .attemptIncStrong _ => true
  | .store _ => false
  | .forceIncStrong _ => true
  | .createWeak _ => true
  | .incWeak _ => true
  | .decWeak _ => true
  | .storeRefs _ => false

/-- The template argument `T` of `sp<T>`: a type with the methods `incStrong`
and `decStrong`, acting on the object at an address in a memory `σ`. -/
structure Counted (σ : Type) where
  incStrong : Ptr → σ → σ
  decStrong : Ptr → σ → σ

/-- The memory the targets live in, and the log of what the handles did. -/
structure Run (σ : Type) where
  mem : σ
  log : List Event

namespace Run

variable {σ : Type}

/-- The call `p->incStrong(this)`. -/
def incStrong (T : Counted σ) (p : Ptr) (r : Run σ) : Run σ :=
  ⟨T.incStrong p r.mem, r.log ++ [Event.incStrong p]⟩

/-- The call `p->decStrong(this)`. -/
def decStrong (T : Counted σ) (p : Ptr) (r : Run σ) : Run σ :=
  ⟨T.decStrong p r.mem, r.log ++ [Event.decStrong p]⟩

/-- The write `m_ptr = p` (also the member initialiser `m_ptr(p)`). -/
def store (p : Ptr) (r : Run σ) : Run σ :=
  ⟨r.mem, r.log ++ [Event.store p]⟩

end Run

/-! ## `sp<T>` -/

/-- The strong handle `sp<T>`: its only member `m_ptr`. -/
structure sp where
  m_ptr : Ptr
deriving DecidableEq

namespace sp

variable {σ : Type}

/-- The accessor `get()`. -/
def get (self : sp) : Ptr := self.m_ptr

/-- The constructor `sp(T* other) : m_ptr(other)`,
`if (other) other->incStrong(this)`. -/
def fromPtr (T : Counted σ) (other : Ptr) (r : Run σ) : sp × Run σ :=
  let r := r.store other
  (⟨other⟩, if other ≠ 0 then r.incStrong T other else r)

/-- The copy constructor `sp(const sp<T>& other) : m_ptr(other.m_ptr)`,
`if (m_ptr) m_ptr->incStrong(this)`. -/
def copy (T : Counted σ) (other : sp) (r : Run σ) : sp × Run σ :=
  let r := r.store other.m_ptr
  let self : sp := ⟨other.m_ptr⟩
  (self, if self.m_ptr ≠ 0 then r.incStrong T self.m_ptr else r)

/-- The constructor `template<U> sp(U* other) : m_ptr(other)`,
`if (other) other->incStrong(this)`. -/
def fromPtrU (T : Counted σ) (other : Ptr) (r : Run σ) : sp × Run σ :=
  let r := r.store other
  (⟨other⟩, if other ≠ 0 then r.incStrong T other else r)

/-- The constructor `template<U> sp(const sp<U>& other) : m_ptr(other.m_ptr)`,
`if (m_ptr) m_ptr->incStrong(this)`. -/
def copyU (T : Counted σ) (other : sp) (r : Run σ) : sp × Run σ :=
  let r := r.store other.m_ptr
  let self : sp := ⟨other.m_ptr⟩
  (self, if self.m_ptr ≠ 0 then r.incStrong T self.m_ptr else r)

/-- The destructor `~sp()`: `if (m_ptr) m_ptr->decStrong(this)`. -/
def destroy (T : Counted σ) (self : sp) (r : Run σ) : Run σ :=
  if self.m_ptr ≠ 0 then r.decStrong T self.m_ptr else r

/-- The assignment `operator = (const sp<T>& other)`:
`T* otherPtr(other.m_ptr); if (otherPtr) otherPtr->incStrong(this);`
`if (m_ptr) m_ptr->decStrong(this); m_ptr = otherPtr; return *this`. -/
def assign (T : Counted σ) (self other : sp) (r : Run σ) : sp × Run σ :=
  let otherPtr := other.m_ptr
  let r := if otherPtr ≠ 0 then r.incStrong T otherPtr else r
  let r := if self.m_ptr ≠ 0 then r.decStrong T self.m_ptr else r
  (⟨otherPtr⟩, r.store otherPtr)

/-- The assignment `operator = (T* other)`:
`if (other) other->incStrong(this); if (m_ptr) m_ptr->decStrong(this);`
`m_ptr = other; return *this`. -/
def assignPtr (T : Counted σ) (self : sp) (other : Ptr) (r : Run σ) : sp × Run σ :=
  let r := if other ≠ 0 then r.incStrong T other else r
  let r := if self.m_ptr ≠ 0 then r.decStrong T self.m_ptr else r
  (⟨other⟩, r.store other)

/-- The assignment `template<U> operator = (const sp<U>& other)`:
`U* otherPtr(other.m_ptr); if (otherPtr) otherPtr->incStrong(this);`
`if (m_ptr) m_ptr->decStrong(this); m_ptr = otherPtr; return *this`. -/
def assignU (T : Counted σ) (self other : sp) (r : Run σ) : sp × Run σ :=
  let otherPtr := other.m_ptr
  let r := if otherPtr ≠ 0 then r.incStrong T otherPtr else r
  let r := if self.m_ptr ≠ 0 then r.decStrong T self.m_ptr else r
  (⟨otherPtr⟩, r.store otherPtr)

/-- The assignment `template<U> operator = (U* other)`:
`if (other) other->incStrong(this); if (m_ptr) m_ptr->decStrong(this);`
`m_ptr = other; return *this`. -/
def assignPtrU (T : Counted σ) (self : sp) (other : Ptr) (r : Run σ) : sp × Run σ :=
  let r := if other ≠ 0 then r.incStrong T other else r
  let r := if self.m_ptr ≠ 0 then r.decStrong T self.m_ptr else r
  (⟨other⟩, r.store other)

/-- The method `clear()`:
`if (m_ptr) { m_ptr->decStrong(this); m_ptr = 0; }`. -/
def clear (T : Counted σ) (self : sp) (r : Run σ) : sp × Run σ :=
  if self.m_ptr ≠ 0 then (⟨0⟩, (r.decStrong T self.m_ptr).store 0) else (self, r)

end sp

/-! ## `LightRefBase` objects in memory -/

/-- One object derived from `LightRefBase<T>` in memory: its counter and how
many times `delete` has run on it. -/
structure Cell where
  obj : LightRefBase
  deletes : Nat
deriving DecidableEq

/-- The memory: the object at each address. -/
abbrev Heap := Ptr → Cell

/-- The call `p->incStrong(id)` on the object at `p`. -/
def Heap.incStrong (p : Ptr) (h : Heap) : Heap :=
  Function.update h p ⟨(h p).obj.incStrong, (h p).deletes⟩

/-- The call `p->decStrong(id)` on the object at `p`; a `delete` is counted. -/
def Heap.decStrong (p : Ptr) (h : Heap) : Heap :=
  let d := (h p).obj.decStrong
  Function.update h p ⟨d.1, if d.2 then (h p).deletes + 1 else (h p).deletes⟩

/-- The counted type `T` is a class derived from `LightRefBase<T>`. -/
def lightRefBase : Counted Heap := ⟨Heap.incStrong, Heap.decStrong⟩

/-- A memory of freshly constructed objects: every count 0, nothing deleted. -/
def Heap.fresh : Heap := fun _ => ⟨LightRefBase.new, 0⟩

/-! ## A program using strong handles -/

/-- The strong handles of a program over `LightRefBase` objects: the memory
with the call log, and the handles constructed so far, in order of
construction. A live handle is `some`, a destroyed one is `none`. -/
structure Sys where
  run : Run Heap
  handles : List (Option sp)

/-- One statement of the program. Handles are named by their position in
`Sys.handles`. -/
inductive Op where
  | fromPtr (p : Ptr)
  | copy (j : Nat)
  | assignPtr (i : Nat) (p : Ptr)
  | assign (i j : Nat)
  | clear (i : Nat)
  | destroy (i : Nat)
deriving DecidableEq

namespace Sys

/-- The live handle number `i`, if there is one. -/
def handle (s : Sys) (i : Nat) : Option sp := s.handles.getD i none

/-- Before anything ran: fresh objects, no handle, an empty log. -/
def init : Sys := ⟨⟨Heap.fresh, []⟩, []⟩

/-- Runs one statement. A statement naming a handle that is not live does
nothing: the scoping of C++ does not let a program name a destroyed handle. -/
def step (s : Sys) : Op → Sys
  | .fromPtr p =>
    let x := sp.fromPtr lightRefBase p s.run
    ⟨x.2, s.handles ++ [some x.1]⟩
  | .copy j =>
    match s.handle j with
    | some o =>
      let x := sp.copy lightRefBase o s.run
      ⟨x.2, s.handles ++ [some x.1]⟩
    | none => s
  | .assignPtr i p =>
    match s.handle i with
    | some a =>
      let x := sp.assignPtr lightRefBase a p s.run
      ⟨x.2, s.handles.set i (some x.1)⟩
    | none => s
  | .assign i j =>
    match s.handle i, s.handle j with
    | some a, some o =>
      let x := sp.assign lightRefBase a o s.run
      ⟨x.2, s.handles.set i (some x.1)⟩
    | _, _ => s
  | .clear i =>
    match s.handle i with
    | some a =>
      let x := sp.clear lightRefBase a s.run
      ⟨x.2, s.handles.set i (some x.1)⟩
    | none => s
  | .destroy i =>
    match s.handle i with
    | some a => ⟨sp.destroy lightRefBase a s.run, s.handles.set i none⟩
    | none => s

/-- Runs the statements in order. -/
def exec (s : Sys) (ops : List Op) : Sys := ops.foldl step s

/-- Number of live handles that point to the object at `p`. -/
def pointing (s : Sys) (p : Ptr) : Nat := s.handles.count (some ⟨p⟩)

/-- The strong count of the object at `p`. -/
def strongCount (s : Sys) (p : Ptr) : Int := (s.run.mem p).obj.getStrongCount

/-- The object at `p` has been deleted. -/
def deleted (s : Sys) (p : Ptr) : Prop := (s.run.mem p).deletes ≠ 0

instance (s : Sys) (p : Ptr) : Decidable (s.deleted p) := by
  unfold deleted; infer_instance

end Sys

/-- The effect on memory shared by all handle methods: an `incStrong` on `q`
unless `q` is null, followed by a `decStrong` on `o` unless `o` is null. -/
def Heap.transfer (q o : Ptr) (h : Heap) : Heap :=
  let h1 := if q ≠ 0 then Heap.incStrong q h else h
  if o ≠ 0 then Heap.decStrong o h1 else h1

/-- The accounting invariant of a program state reached in at most `n`
statements: at most `n` handles were constructed, and the strong count of every
object that has not been deleted is the number of live handles pointing to it. -/
def Sys.Inv (s : Sys) (n : Nat) : Prop :=
  s.handles.length ≤ n ∧
  ∀ p, p ≠ 0 → (s.run.mem p).deletes = 0 →
    (s.run.mem p).obj.mCount = s.handles.count (some ⟨p⟩)

/-! ## `wp<T>` -/

/-- The weak handle `wp<T>`: the members `m_ptr` and `m_refs` (the address of
the `weakref_type` block). -/
structure wp where
  m_ptr : Ptr
  m_refs : Ptr
deriving DecidableEq

/-- The private constructor `sp(T* p, weakref_type* refs)`:
`m_ptr((p && refs->attemptIncStrong(this)) ? p : 0)`. The body of
`attemptIncStrong` (RefBase.cpp) is not among the sources: it is the parameter
`attemptIncStrong`, which from the block and the memory gives the answer and
the memory after the call. `&&` does not evaluate its right side when `p` is
null. -/
def sp.fromWeak {σ : Type} (attemptIncStrong : Ptr → σ → Bool × σ) (p refs : Ptr)
    (r : Run σ) : sp × Run σ :=
  if p ≠ 0 then
    let a := attemptIncStrong refs r.mem
    let r1 : Run σ := ⟨a.2, r.log ++ [Event.attemptIncStrong refs]⟩
    if a.1 then (⟨p⟩, r1.store p) else (⟨0⟩, r1.store 0)
  else (⟨0⟩, r.store 0)

namespace wp

/-- The method `promote() const`: `return sp<T>(m_ptr, m_refs)`. The result is
the strong handle, the receiver after the call, and the run. -/
def promote {σ : Type} (attemptIncStrong : Ptr → σ → Bool × σ) (self : wp)
    (r : Run σ) : sp × wp × Run σ :=
  let x := sp.fromWeak attemptIncStrong self.m_ptr self.m_refs r
  (x.1, self, x.2)

/-- The operator `operator == (const wp<T>& o)`:
`(m_ptr == o.m_ptr) && (m_refs == o.m_refs)`. -/
def op_eq (self o : wp) : Bool :=
  (self.m_ptr == o.m_ptr) && (self.m_refs == o.m_refs)

/-- The operator `operator > (const wp<T>& o)`:
`(m_ptr == o.m_ptr) ? (m_refs > o.m_refs) : (m_ptr > o.m_ptr)`. -/
def op_gt (self o : wp) : Bool :=
  if self.m_ptr == o.m_ptr then decide (self.m_refs > o.m_refs)
  else decide (self.m_ptr > o.m_ptr)

/-- The operator `operator < (const wp<T>& o)`:
`(m_ptr == o.m_ptr) ? (m_refs < o.m_refs) : (m_ptr < o.m_ptr)`. -/
def op_lt (self o : wp) : Bool :=
  if self.m_ptr == o.m_ptr then decide (self.m_refs < o.m_refs)
  else decide (self.m_ptr < o.m_ptr)

/-- The operator `operator != (const wp<T>& o)`: `m_refs != o.m_refs`. -/
def op_ne (self o : wp) : Bool := self.m_refs != o.m_refs

/-- The operator `operator <= (const wp<T>& o)`: `!operator > (o)`. -/
def op_le (self o : wp) : Bool := !(self.op_gt o)

/-- The operator `operator >= (const wp<T>& o)`: `!operator < (o)`. -/
def op_ge (self o : wp) : Bool := !(self.op_lt o)

end wp

namespace wp

/-- The operator `template<U> operator == (const wp<U>& o)`:
`m_ptr == o.m_ptr`. -/
def op_eq_U (self o : wp) : Bool := self.m_ptr == o.m_ptr

/-- The operator `template<U> operator > (const wp<U>& o)`:
`(m_ptr == o.m_ptr) ? (m_refs > o.m_refs) : (m_ptr > o.m_ptr)`. -/
def op_gt_U (self o : wp) : Bool :=
  if self.m_ptr == o.m_ptr then decide (self.m_refs > o.m_refs)
  else decide (self.m_ptr > o.m_ptr)

/-- The operator `template<U> operator < (const wp<U>& o)`:
`(m_ptr == o.m_ptr) ? (m_refs < o.m_refs) : (m_ptr < o.m_ptr)`. -/
def op_lt_U (self o : wp) : Bool :=
  if self.m_ptr == o.m_ptr then decide (self.m_refs < o.m_refs)
  else decide (self.m_ptr < o.m_ptr)

/-- The operator `template<U> operator != (const wp<U>& o)`:
`!operator == (o)`. -/
def op_ne_U (self o : wp) : Bool := !(self.op_eq_U o)

/-- The operator `template<U> operator <= (const wp<U>& o)`:
`!operator > (o)`. -/
def op_le_U (self o : wp) : Bool := !(self.op_gt_U o)

/-- The operator `template<U> operator >= (const wp<U>& o)`:
`!operator < (o)`. -/
def op_ge_U (self o : wp) : Bool := !(self.op_lt_U o)

end wp

/-! ## The comparison macros `COMPARE_WEAK` and `COMPARE` -/

/-- The operator token `_op_` the macros are expanded with. -/
inductive CmpOp where
  | eq
  | ne
  | gt
  | lt
  | le
  | ge
deriving DecidableEq

/-- The built-in comparison `a _op_ b` of two raw pointers. -/
def CmpOp.onPtr : CmpOp → Ptr → Ptr → Bool
  | .eq, a, b => a == b
  | .ne, a, b => a != b
  | .gt, a, b => decide (a > b)
  | .lt, a, b => decide (a < b)
  | .le, a, b => decide (a ≤ b)
  | .ge, a, b => decide (a ≥ b)

namespace sp

/-- `COMPARE_WEAK(_op_)` in `sp<T>`, `operator _op_ (const sp<T>& o)`:
`m_ptr _op_ o.m_ptr`. -/
def compare_sp (op : CmpOp) (self o : sp) : Bool := op.onPtr self.m_ptr o.m_ptr

/-- `COMPARE_WEAK(_op_)` in `sp<T>`, `operator _op_ (const T* o)`:
`m_ptr _op_ o`. -/
def compare_ptr (op : CmpOp) (self : sp) (o : Ptr) : Bool := op.onPtr self.m_ptr o

/-- `COMPARE_WEAK(_op_)` in `sp<T>`, `template<U> operator _op_ (const sp<U>& o)`:
`m_ptr _op_ o.m_ptr`. -/
def compare_spU (op : CmpOp) (self o : sp) : Bool := op.onPtr self.m_ptr o.m_ptr

/-- `COMPARE_WEAK(_op_)` in `sp<T>`, `template<U> operator _op_ (const U* o)`:
`m_ptr _op_ o`. -/
def compare_ptrU (op : CmpOp) (self : sp) (o : Ptr) : Bool := op.onPtr self.m_ptr o

/-- `COMPARE(_op_)` in `sp<T>`, `operator _op_ (const wp<T>& o)`:
`m_ptr _op_ o.m_ptr`. -/
def compare_wp (op : CmpOp) (self : sp) (o : wp) : Bool := op.onPtr self.m_ptr o.m_ptr

/-- `COMPARE(_op_)` in `sp<T>`, `template<U> operator _op_ (const wp<U>& o)`:
`m_ptr _op_ o.m_ptr`. -/
def compare_wpU (op : CmpOp) (self : sp) (o : wp) : Bool := op.onPtr self.m_ptr o.m_ptr

end sp

namespace wp

/-- `COMPARE_WEAK(_op_)` in `wp<T>`, `operator _op_ (const sp<T>& o)`:
`m_ptr _op_ o.m_ptr`. -/
def compare_sp (op : CmpOp) (self : wp) (o : sp) : Bool := op.onPtr self.m_ptr o.m_ptr

/-- `COMPARE_WEAK(_op_)` in `wp<T>`, `operator _op_ (const T* o)`:
`m_ptr _op_ o`. -/
def compare_ptr (op : CmpOp) (self : wp) (o : Ptr) : Bool := op.onPtr self.m_ptr o

/-- `COMPARE_WEAK(_op_)` in `wp<T>`, `template<U> operator _op_ (const sp<U>& o)`:
`m_ptr _op_ o.m_ptr`. -/
def compare_spU (op : CmpOp) (self : wp) (o : sp) : Bool := op.onPtr self.m_ptr o.m_ptr

/-- `COMPARE_WEAK(_op_)` in `wp<T>`, `template<U> operator _op_ (const U* o)`:
`m_ptr _op_ o`. -/
def compare_ptrU (op : CmpOp) (self : wp) (o : Ptr) : Bool := op.onPtr self.m_ptr o

end wp

/-! ## The weak side of the handles -/

/-- The functions of `RefBase` and `weakref_type` that a weak handle calls.
Their bodies (RefBase.cpp) are not among the sources, so they are parameters:
`createWeak` gives the block and the memory after the call, `incWeak` and
`decWeak` the memory after the call. -/
structure Weak (σ : Type) where
  createWeak : Ptr → σ → Ptr × σ
  incWeak : Ptr → σ → σ
  decWeak : Ptr → σ → σ

namespace Run

variable {σ : Type}

/-- The call `p->createWeak(this)`: the block returned and the run after. -/
def createWeak (W : Weak σ) (p : Ptr) (r : Run σ) : Ptr × Run σ :=
  let c := W.createWeak p r.mem
  (c.1, ⟨c.2, r.log ++ [Event.createWeak p]⟩)

/-- The call `refs->incWeak(this)`. -/
def incWeak (W : Weak σ) (refs : Ptr) (r : Run σ) : Run σ :=
  ⟨W.incWeak refs r.mem, r.log ++ [Event.incWeak refs]⟩

/-- The call `refs->decWeak(this)`. -/
def decWeak (W : Weak σ) (refs : Ptr) (r : Run σ) : Run σ :=
  ⟨W.decWeak refs r.mem, r.log ++ [Event.decWeak refs]⟩

/-- The write `m_refs = refs`. -/
def storeRefs (refs : Ptr) (r : Run σ) : Run σ :=
  ⟨r.mem, r.log ++ [Event.storeRefs refs]⟩

/-- The call `p->forceIncStrong(this)`; the body of `forceIncStrong`
(RefBase.cpp) is the parameter `f`. -/
def forceIncStrong (f : Ptr → σ → σ) (p : Ptr) (r : Run σ) : Run σ :=
  ⟨f p r.mem, r.log ++ [Event.forceIncStrong p]⟩

end Run

/-- The method `sp<T>::force_set(T* other)`:
`other->forceIncStrong(this); m_ptr = other`. -/
def sp.force_set {σ : Type} (forceIncStrong : Ptr → σ → σ) (_self : sp) (other : Ptr)
    (r : Run σ) : sp × Run σ :=
  (⟨other⟩, (r.forceIncStrong forceIncStrong other).store other)

namespace wp

variable {σ : Type}

/-- The constructor `wp(T* other) : m_ptr(other)`,
`if (other) m_refs = other->createWeak(this)`. When `other` is null `m_refs` is
not initialised: it holds `uninit`, whatever was in its storage. -/
def fromPtr (W : Weak σ) (uninit other : Ptr) (r : Run σ) : wp × Run σ :=
  let r := r.store other
  if other ≠ 0 then
    let c := r.createWeak W other
    (⟨other, c.1⟩, c.2.storeRefs c.1)
  else (⟨other, uninit⟩, r)

/-- The constructor `wp(const sp<T>& other) : m_ptr(other.m_ptr)`,
`if (m_ptr) { m_refs = m_ptr->createWeak(this); }`. -/
def fromSp (W : Weak σ) (uninit : Ptr) (other : sp) (r : Run σ) : wp × Run σ :=
  let r := r.store other.m_ptr
  let m_ptr := other.m_ptr
  if m_ptr ≠ 0 then
    let c := r.createWeak W m_ptr
    (⟨m_ptr, c.1⟩, c.2.storeRefs c.1)
  else (⟨m_ptr, uninit⟩, r)

/-- The constructor `template<U> wp(U* other) : m_ptr(other)`,
`if (other) m_refs = other->createWeak(this)`. -/
def fromPtrU (W : Weak σ) (uninit other : Ptr) (r : Run σ) : wp × Run σ :=
  let r := r.store other
  if other ≠ 0 then
    let c := r.createWeak W other
    (⟨other, c.1⟩, c.2.storeRefs c.1)
  else (⟨other, uninit⟩, r)

/-- The constructor `template<U> wp(const sp<U>& other) : m_ptr(other.m_ptr)`,
`if (m_ptr) { m_refs = m_ptr->createWeak(this); }`. -/
def fromSpU (W : Weak σ) (uninit : Ptr) (other : sp) (r : Run σ) : wp × Run σ :=
  let r := r.store other.m_ptr
  let m_ptr := other.m_ptr
  if m_ptr ≠ 0 then
    let c := r.createWeak W m_ptr
    (⟨m_ptr, c.1⟩, c.2.storeRefs c.1)
  else (⟨m_ptr, uninit⟩, r)

/-- The assignment `operator = (T* other)`:
`weakref_type* newRefs = other ? other->createWeak(this) : 0;`
`if (m_ptr) m_refs->decWeak(this); m_ptr = other; m_refs = newRefs`. -/
def assignPtr (W : Weak σ) (self : wp) (other : Ptr) (r : Run σ) : wp × Run σ :=
  let c : Ptr × Run σ := if other ≠ 0 then r.createWeak W other else (0, r)
  let newRefs := c.1
  let r := if self.m_ptr ≠ 0 then c.2.decWeak W self.m_refs else c.2
  (⟨other, newRefs⟩, (r.store other).storeRefs newRefs)

/-- The assignment `operator = (const wp<T>& other)`:
`weakref_type* otherRefs(other.m_refs); T* otherPtr(other.m_ptr);`
`if (otherPtr) otherRefs->incWeak(this); if (m_ptr) m_refs->decWeak(this);`
`m_ptr = otherPtr; m_refs = otherRefs`. -/
def assign (W : Weak σ) (self other : wp) (r : Run σ) : wp × Run σ :=
  let otherRefs := other.m_refs
  let otherPtr := other.m_ptr
  let r := if otherPtr ≠ 0 then r.incWeak W otherRefs else r
  let r := if self.m_ptr ≠ 0 then r.decWeak W self.m_refs else r
  (⟨otherPtr, otherRefs⟩, (r.store otherPtr).storeRefs otherRefs)

/-- The assignment `operator = (const sp<T>& other)`:
`weakref_type* newRefs = other != NULL ? other->createWeak(this) : 0;`
`T* otherPtr(other.m_ptr); if (m_ptr) m_refs->decWeak(this);`
`m_ptr = otherPtr; m_refs = newRefs`. Here `other != NULL` is the operator
`!=` of `sp<T>` with a raw pointer and `other->` is `other.m_ptr->`. -/
def assignSp (W : Weak σ) (self : wp) (other : sp) (r : Run σ) : wp × Run σ :=
  let c : Ptr × Run σ :=
    if other.compare_ptr CmpOp.ne 0 then r.createWeak W other.m_ptr else (0, r)
  let newRefs := c.1
  let otherPtr := other.m_ptr
  let r := if self.m_ptr ≠ 0 then c.2.decWeak W self.m_refs else c.2
  (⟨otherPtr, newRefs⟩, (r.store otherPtr).storeRefs newRefs)

/-- The assignment `template<U> operator = (U* other)`:
`weakref_type* newRefs = other ? other->createWeak(this) : 0;`
`if (m_ptr) m_refs->decWeak(this); m_ptr = other; m_refs = newRefs`. -/
def assignPtrU (W : Weak σ) (self : wp) (other : Ptr) (r : Run σ) : wp × Run σ :=
  let c : Ptr × Run σ := if other ≠ 0 then r.createWeak W other else (0, r)
  let newRefs := c.1
  let r := if self.m_ptr ≠ 0 then c.2.decWeak W self.m_refs else c.2
  (⟨other, newRefs⟩, (r.store other).storeRefs newRefs)

/-- The assignment `template<U> operator = (const wp<U>& other)`:
`weakref_type* otherRefs(other.m_refs); U* otherPtr(other.m_ptr);`
`if (otherPtr) otherRefs->incWeak(this); if (m_ptr) m_refs->decWeak(this);`
`m_ptr = otherPtr; m_refs = otherRefs`. -/
def assignU (W : Weak σ) (self other : wp) (r : Run σ) : wp × Run σ :=
  let otherRefs := other.m_refs
  let otherPtr := other.m_ptr
  let r := if otherPtr ≠ 0 then r.incWeak W otherRefs else r
  let r := if self.m_ptr ≠ 0 then r.decWeak W self.m_refs else r
  (⟨otherPtr, otherRefs⟩, (r.store otherPtr).storeRefs otherRefs)

/-- The assignment `template<U> operator = (const sp<U>& other)`:
`weakref_type* newRefs = other != NULL ? other->createWeak(this) : 0;`
`U* otherPtr(other.m_ptr); if (m_ptr) m_refs->decWeak(this);`
`m_ptr = otherPtr; m_refs = newRefs`. -/
def assignSpU (W : Weak σ) (self : wp) (other : sp) (r : Run σ) : wp × Run σ :=
  let c : Ptr × Run σ :=
    if other.compare_ptr CmpOp.ne 0 then r.createWeak W other.m_ptr else (0, r)
  let newRefs := c.1
  let otherPtr := other.m_ptr
  let r := if self.m_ptr ≠ 0 then c.2.decWeak W self.m_refs else c.2
  (⟨otherPtr, newRefs⟩, (r.store otherPtr).storeRefs newRefs)

/-- The method `set_object_and_refs(T* other, weakref_type* refs)`:
`if (other) refs->incWeak(this); if (m_ptr) m_refs->decWeak(this);`
`m_ptr = other; m_refs = refs`. -/
def set_object_and_refs (W : Weak σ) (self : wp) (other refs : Ptr) (r : Run σ) :
    wp × Run σ :=
  let r := if other ≠ 0 then r.incWeak W refs else r
  let r := if self.m_ptr ≠ 0 then r.decWeak W self.m_refs else r
  (⟨other, refs⟩, (r.store other).storeRefs refs)

/-- The method `clear()`:
`if (m_ptr) { m_refs->decWeak(this); m_ptr = 0; }`. -/
def clear (W : Weak σ) (self : wp) (r : Run σ) : wp × Run σ :=
  if self.m_ptr ≠ 0 then (⟨0, self.m_refs⟩, (r.decWeak W self.m_refs).store 0)
  else (self, r)

end wp

/-! ## The counting engine of `RefBase`, from the specification

The bodies of `RefBase::incStrong`, `decStrong`, `forceIncStrong` and of
`weakref_type::incWeak`, `decWeak`, `attemptIncStrong` are in RefBase.cpp, which
is not among the sources. The header declares them; what they do is taken from
the specification (sections 3 and 4.1). -/

/-- The flag `OBJECT_LIFETIME_WEAK` of the header. -/
def OBJECT_LIFETIME_WEAK : Nat := 0x0001

/-- The flag `OBJECT_LIFETIME_FOREVER` of the header. -/
def OBJECT_LIFETIME_FOREVER : Nat := 0x0003

/-- Modelled from the spec: the lifetime policy of a reference block,
`{STRONG_ONLY, WEAK_EXTENDS_LIFE, FOREVER}`. -/
inductive LifetimePolicy where
  | STRONG_ONLY
  | WEAK_EXTENDS_LIFE
  | FOREVER
deriving DecidableEq

/-- The flags of the header that select a policy: 0 is the default. -/
def LifetimePolicy.flags : LifetimePolicy → Nat
  | .STRONG_ONLY => 0
  | .WEAK_EXTENDS_LIFE => OBJECT_LIFETIME_WEAK
  | .FOREVER => OBJECT_LIFETIME_FOREVER

/-- Modelled from the spec: the reference block of a managed object (RefBase.cpp
is not among the sources): the two 32-bit counts and the lifetime policy. The
field `destroyed` counts how many times the object was destroyed. The freeing of
the block itself and the hooks without a result are not tracked. -/
structure ReferenceBlock where
  strongCount : Int
  weakCount : Int
  lifetimePolicy : LifetimePolicy
  destroyed : Nat
deriving DecidableEq

namespace ReferenceBlock

/-- The object is destroyed once more. -/
def destroy (b : ReferenceBlock) : ReferenceBlock :=
  { b with destroyed := b.destroyed + 1 }

/-- Modelled from the spec: `incStrong` (RefBase.cpp is not among the sources)
is an atomic increment of the strong count. -/
def incStrong (b : ReferenceBlock) : ReferenceBlock :=
  { b with strongCount := (android_atomic_inc b.strongCount).2 }

/-- Modelled from the spec: `decStrong` (RefBase.cpp is not among the sources)
is an atomic decrement of the strong count; on the 1 to 0 transition the policy
is applied: STRONG_ONLY destroys the object, WEAK_EXTENDS_LIFE destroys it only
if the weak count is 0 and otherwise defers the destruction to the last weak
release, FOREVER never destroys it. -/
def decStrong (b : ReferenceBlock) : ReferenceBlock :=
  let d := android_atomic_dec b.strongCount
  let b1 := { b with strongCount := d.2 }
  if d.1 = 1 then
    match b.lifetimePolicy with
    | .STRONG_ONLY => b1.destroy
    | .WEAK_EXTENDS_LIFE => if b.weakCount = 0 then b1.destroy else b1
    | .FOREVER => b1
  else b1

/-- Modelled from the spec: `forceIncStrong` (RefBase.cpp is not among the
sources) installs a strong reference unconditionally: the strong count goes up
by one. -/
def forceIncStrong (b : ReferenceBlock) : ReferenceBlock :=
  { b with strongCount := (android_atomic_inc b.strongCount).2 }

/-- Modelled from the spec: `incWeak` (RefBase.cpp is not among the sources) is
an atomic increment of the weak count. -/
def incWeak (b : ReferenceBlock) : ReferenceBlock :=
  { b with weakCount := (android_atomic_inc b.weakCount).2 }

/-- Modelled from the spec: `decWeak` (RefBase.cpp is not among the sources) is
an atomic decrement of the weak count. Under WEAK_EXTENDS_LIFE the destruction
of the object waits for the last weak reference: on the weak 1 to 0 transition
with a strong count of 0 the object is destroyed. -/
def decWeak (b : ReferenceBlock) : ReferenceBlock :=
  let d := android_atomic_dec b.weakCount
  let b1 := { b with weakCount := d.2 }
  if d.1 = 1 ∧ b.strongCount = 0 ∧ b.lifetimePolicy = LifetimePolicy.WEAK_EXTENDS_LIFE
  then b1.destroy else b1

/-- Modelled from the spec: `attemptIncStrong` (RefBase.cpp is not among the
sources) reads the strong count; if it is above 0 the count goes up by one and
the attempt succeeds; if it is 0 under STRONG_ONLY the attempt fails; if it is 0
under a policy that keeps the object past strong count 0, the hook
`onIncStrongAttempted` decides (`hook` is its answer) and only `true` permits
the 0 to 1 transition. Run from one thread, the compare-and-swap succeeds at
once. -/
def attemptIncStrong (hook : Bool) (b : ReferenceBlock) : Bool × ReferenceBlock :=
  if 0 < b.strongCount then
    (true, { b with strongCount := wrap32 (b.strongCount + 1) })
  else
    match b.lifetimePolicy with
    | .STRONG_ONLY => (false, b)
    | _ => if hook then (true, { b with strongCount := wrap32 (b.strongCount + 1) })
        else (false, b)

end ReferenceBlock

/-- The memory of reference blocks, by block address. -/
abbrev RefHeap := Ptr → ReferenceBlock

namespace RefHeap

/-- The call `refs->attemptIncStrong(id)` on the block at `refs`; `hook` is the
answer of the object's `onIncStrongAttempted`. -/
def attemptIncStrong (hook : Ptr → Bool) (refs : Ptr) (m : RefHeap) : Bool × RefHeap :=
  let a := (m refs).attemptIncStrong (hook refs)
  (a.1, Function.update m refs a.2)

/-- The call `refs->incWeak(id)` on the block at `refs`. -/
def incWeak (refs : Ptr) (m : RefHeap) : RefHeap :=
  Function.update m refs (m refs).incWeak

/-- The call `refs->decWeak(id)` on the block at `refs`. -/
def decWeak (refs : Ptr) (m : RefHeap) : RefHeap :=
  Function.update m refs (m refs).decWeak

/-- The call `p->forceIncStrong(id)`; `mRefs` gives the block of an object (the
member `mRefs` of `RefBase`). -/
def forceIncStrong (mRefs : Ptr → Ptr) (p : Ptr) (m : RefHeap) : RefHeap :=
  Function.update m (mRefs p) (m (mRefs p)).forceIncStrong

/-- The weak side of the handles on the blocks; `createWeak` stays a
parameter. -/
def weak (createWeak : Ptr → RefHeap → Ptr × RefHeap) : Weak RefHeap :=
  ⟨createWeak, incWeak, decWeak⟩

end RefHeap

/-! ## Threads racing in `LightRefBase::decStrong` -/

/-- A thread that releases references of one `LightRefBase` object: the calls
of `decStrong` it still has to make and, while it is inside a call between the
atomic decrement and the comparison with 1, the value `android_atomic_dec`
returned to it. -/
structure Thread where
  remaining : Nat
  seen : Option Int
deriving DecidableEq

/-- The object shared by the threads, the threads, and the threads that ran
`delete`, in order. -/
structure Race where
  obj : LightRefBase
  threads : List Thread
  deleters : List Nat

namespace Race

/-- The threads are about to make `ks[t]` calls of `decStrong` each, and the
count of the object is the number of acquires made before, which is the total
number of releases. -/
def start (ks : List Nat) : Race :=
  ⟨⟨(ks.sum : Nat)⟩, ks.map (fun k => ⟨k, none⟩), []⟩

/-- Thread `t` is scheduled for one step. Outside a call with calls left it
enters `decStrong` and does the atomic decrement, keeping the value returned;
inside a call it finishes `decStrong`: `if (value == 1) delete`. A thread that
has nothing left to do, or that does not exist, does nothing. -/
def step (s : Race) (t : Nat) : Race :=
  match s.threads[t]? with
  | none => s
  | some th =>
    match th.seen with
    | some v =>
      ⟨s.obj, s.threads.set t ⟨th.remaining, none⟩,
        if v = 1 then s.deleters ++ [t] else s.deleters⟩
    | none =>
      if th.remaining = 0 then s
      else
        let d := android_atomic_dec s.obj.mCount
        ⟨⟨d.2⟩, s.threads.set t ⟨th.remaining - 1, some d.1⟩, s.deleters⟩

/-- An interleaving: the threads are scheduled in the order `sched`. -/
def run (s : Race) (sched : List Nat) : Race := sched.foldl step s

/-- Every thread has made all its calls and is outside `decStrong`. -/
def finished (s : Race) : Prop :=
  ∀ th ∈ s.threads, th.remaining = 0 ∧ th.seen = none

instance (s : Race) : Decidable s.finished := by
  unfold finished; infer_instance

/-- Calls of `decStrong` still to be made, over all threads. -/
def pending (s : Race) : Nat := (s.threads.map (fun th => th.remaining)).sum

/-- Number of threads that were returned 1 and have not yet run `delete`. -/
def aboutToDelete (s : Race) : Nat :=
  (s.threads.map (fun th => if th.seen = some 1 then 1 else 0)).sum

/-- The invariant of the race: the count is the number of calls still to be
made, and a thread was returned 1 (and ran or will run `delete`) exactly when
the count has reached 0. -/
def Inv (s : Race) : Prop :=
  s.obj.mCount = (s.pending : Int) ∧ (s.pending : Int) ≤ INT32_MAX ∧
  s.deleters.length + s.aboutToDelete = (if s.obj.mCount = 0 then 1 else 0)

end Race

/-! ## `app_main.cpp`: `setArgv0` -/

/-- The library function `strlen` (libc, not among the sources): the number of
bytes of the memory `s` before the first NUL byte. A string in memory is the
list of the bytes from its address on. -/
def strlen (s : List Nat) : Nat := (s.takeWhile (fun c => c != 0)).length

/-- The library function `strlcpy(dst, src, size)` (libc, not among the
sources), as its manual describes it: it copies up to `size - 1` bytes of the
string `src` to `dst` and, if `size` is not 0, terminates the result with a NUL
byte; it returns `strlen(src)`. The result is the memory at `dst` after the
call and the value returned. -/
def strlcpy (dst src : List Nat) (size : Nat) : List Nat × Nat :=
  if size = 0 then (dst, strlen src)
  else
    let n := min (strlen src) (size - 1)
    (src.take n ++ [0] ++ dst.drop (n + 1), strlen src)

/-- The function `setArgv0(argv0, newArgv0)`:
`strlcpy(const_cast<char *>(argv0), newArgv0, strlen(argv0))`. The result is the
memory at `argv0` after the call. -/
def setArgv0 (argv0 newArgv0 : List Nat) : List Nat :=
  (strlcpy argv0 newArgv0 (strlen argv0)).1

/-! ## `app_main.cpp`: `main` -/

namespace AppMain

/-- The members of `AppRuntime` that `main` sets; a null pointer is `none`.
`mArgV` is the array `argv + i`: the arguments from index `i` on. -/
structure AppRuntime where
  mParentDir : Option String
  mClassName : Option String
  mArgC : Int
  mArgV : Option (List String)
deriving DecidableEq

/-- The constructor `AppRuntime()`:
`mParentDir(NULL), mClassName(NULL), mArgC(0), mArgV(NULL)`. -/
def AppRuntime.new : AppRuntime := ⟨none, none, 0, none⟩

end AppMain

/-! ## Theorems -/

theorem wrap32_id (x : Int) (h1 : INT32_MIN ≤ x) (h2 : x ≤ INT32_MAX) : wrap32 x = x := by
  unfold wrap32; unfold INT32_MIN at h1; unfold INT32_MAX at h2; omega

theorem wrap32_range (x : Int) : INT32_MIN ≤ wrap32 x ∧ wrap32 x ≤ INT32_MAX := by
  unfold wrap32 INT32_MIN INT32_MAX; omega

theorem calls_count (cs : List Call) (o : LightRefBase)
    (h1 : INT32_MIN ≤ o.mCount) (h2 : o.mCount ≤ INT32_MAX) :
    (o.calls cs).1.mCount = wrap32 (o.mCount + acquires cs - releases cs) := by
  induction cs generalizing o with
  | nil => simp [LightRefBase.calls, acquires, releases, wrap32_id _ h1 h2]
  | cons c cs ih =>
    cases c
    · have r := wrap32_range (o.mCount + 1)
      simp only [LightRefBase.calls, LightRefBase.call, LightRefBase.incStrong,
        android_atomic_inc, acquires, releases] at *
      rw [ih ⟨wrap32 _⟩ r.1 r.2]
      simp
      unfold wrap32; omega
    · have r := wrap32_range (o.mCount - 1)
      simp only [LightRefBase.calls, LightRefBase.call, LightRefBase.decStrong,
        android_atomic_dec, acquires, releases] at *
      rw [ih ⟨wrap32 _⟩ r.1 r.2]
      simp
      unfold wrap32; omega

theorem calls_append (p q : List Call) (o : LightRefBase) :
    o.calls (p ++ q) = (((o.calls p).1.calls q).1, (o.calls p).2 ++ ((o.calls p).1.calls q).2) := by
  induction p generalizing o with
  | nil => simp [LightRefBase.calls]
  | cons c p ih => simp [LightRefBase.calls, ih]

theorem fresh_count (cs : List Call) :
    (LightRefBase.new.calls cs).1.mCount = wrap32 ((acquires cs : Int) - releases cs) := by
  have h := calls_count cs LightRefBase.new (by decide) (by decide)
  simpa [LightRefBase.new] using h

theorem count_true_le_one (l : List Bool) (h : ∀ b ∈ l.dropLast, b = false) :
    l.count true ≤ 1 := by
  rcases List.eq_nil_or_concat l with rfl | ⟨l', b, rfl⟩
  · simp
  · simp only [List.concat_eq_append, List.dropLast_concat] at h
    have h0 : l'.count true = 0 := by
      rw [List.count_eq_zero]
      intro hm
      exact absurd (h true hm) (by decide)
    rw [List.concat_eq_append, List.count_append, h0]
    cases b <;> simp

/-- C1: for every sequence of incStrong/decStrong calls made from one thread on
a freshly constructed LightRefBase object, and every initial segment of it after
which the object has not been deleted, getStrongCount() is the number of
incStrong calls minus the number of decStrong calls of that segment, as a 32-bit
integer. -/
theorem C1_running_count (cs p : List Call) (_hp : p ∈ cs.inits) (_hd : notDeleted p) :
    (LightRefBase.new.calls p).1.getStrongCount = wrap32 ((acquires p : Int) - releases p) := by
  unfold LightRefBase.getStrongCount
  exact fresh_count p

theorem C1_running_count_witness :
    [Call.incStrong, Call.incStrong] ∈ [Call.incStrong, Call.incStrong, Call.decStrong].inits ∧
    notDeleted [Call.incStrong, Call.incStrong] ∧
    (LightRefBase.new.calls [Call.incStrong, Call.incStrong]).1.getStrongCount
      = wrap32 ((acquires [Call.incStrong, Call.incStrong] : Int)
          - releases [Call.incStrong, Call.incStrong]) :=
  ⟨by decide, by decide,
    C1_running_count [Call.incStrong, Call.incStrong, Call.decStrong]
      [Call.incStrong, Call.incStrong] (by decide) (by decide)⟩

/-- C2: LightRefBase::decStrong deletes the object if and only if the decrement
takes the count to zero, which is exactly when the count read before the
decrement was 1; for every other prior count it only decrements (the counter
becomes the prior count minus one as a 32-bit integer) and deletes nothing. -/
theorem C2_decStrong_deletes_iff (o : LightRefBase)
    (h1 : INT32_MIN ≤ o.mCount) (h2 : o.mCount ≤ INT32_MAX) :
    (o.decStrong.2 = true ↔ o.decStrong.1.mCount = 0) ∧
    (o.decStrong.2 = true ↔ o.mCount = 1) ∧
    (o.mCount ≠ 1 → o.decStrong = (⟨wrap32 (o.mCount - 1)⟩, false)) := by
  unfold INT32_MIN at h1
  unfold INT32_MAX at h2
  refine ⟨?_, ?_, ?_⟩
  · simp only [LightRefBase.decStrong, android_atomic_dec, beq_iff_eq]
    unfold wrap32; omega
  · simp [LightRefBase.decStrong, android_atomic_dec]
  · intro h
    simp [LightRefBase.decStrong, android_atomic_dec, h]

theorem C2_decStrong_deletes_iff_witness :
    ((LightRefBase.mk 1).decStrong.2 = true ↔ (LightRefBase.mk 1).decStrong.1.mCount = 0) ∧
    ((LightRefBase.mk 1).decStrong.2 = true ↔ (LightRefBase.mk 1).mCount = 1) ∧
    ((LightRefBase.mk 1).mCount ≠ 1 →
      (LightRefBase.mk 1).decStrong = (⟨wrap32 ((LightRefBase.mk 1).mCount - 1)⟩, false)) :=
  C2_decStrong_deletes_iff (LightRefBase.mk 1) (by decide) (by decide)

/-- C3: the object is destroyed at most once. For every sequence of
incStrong/decStrong calls on a freshly constructed LightRefBase object in which
no call is made after the object has been deleted and every initial segment has
at least as many incStrong as decStrong calls, delete runs at most once; when
the sequence is non-empty and ends with equally many acquires and releases,
delete runs exactly once, in the last call. -/
theorem C3_deleted_at_most_once (cs : List Call)
    (h1 : noCallAfterDelete cs) (h2 : neverOverReleased cs) :
    (LightRefBase.new.calls cs).2.count true ≤ 1 ∧
    (cs ≠ [] → acquires cs = releases cs →
      (LightRefBase.new.calls cs).2.count true = 1 ∧
      (LightRefBase.new.calls cs).2.getLast? = some true) := by
  have hle := count_true_le_one _ h1
  refine ⟨hle, ?_⟩
  intro hne heq
  rcases List.eq_nil_or_concat cs with rfl | ⟨p, c, rfl⟩
  · exact absurd rfl hne
  · rw [List.concat_eq_append] at *
    have hp : releases p ≤ acquires p := h2 p (by simp [List.mem_inits])
    have hc : c = Call.decStrong ∧ acquires p = releases p + 1 := by
      cases c
      · simp [acquires, releases, List.count_append] at heq hp
        omega
      · simp [acquires, releases, List.count_append] at heq hp
        exact ⟨rfl, heq⟩
    obtain ⟨rfl, hc⟩ := hc
    have hcnt : (LightRefBase.new.calls p).1.mCount = 1 := by
      rw [fresh_count, hc]; push_cast; unfold wrap32; omega
    have hlast : (LightRefBase.new.calls (p ++ [Call.decStrong])).2
        = (LightRefBase.new.calls p).2 ++ [true] := by
      rw [calls_append]
      simp [LightRefBase.calls, LightRefBase.call, LightRefBase.decStrong,
        android_atomic_dec, hcnt]
    rw [hlast] at hle ⊢
    refine ⟨?_, by simp⟩
    rw [List.count_append] at hle ⊢
    simp at hle ⊢
    exact hle

theorem C3_deleted_at_most_once_witness :
    noCallAfterDelete [Call.incStrong, Call.incStrong, Call.decStrong, Call.decStrong] ∧
    neverOverReleased [Call.incStrong, Call.incStrong, Call.decStrong, Call.decStrong] ∧
    (LightRefBase.new.calls
      [Call.incStrong, Call.incStrong, Call.decStrong, Call.decStrong]).2.count true = 1 :=
  ⟨by decide, by decide,
    ((C3_deleted_at_most_once [Call.incStrong, Call.incStrong, Call.decStrong, Call.decStrong]
      (by decide) (by decide)).2 (by decide) (by decide)).1⟩

/-- C4 (refuted as stated): a decStrong issued on a LightRefBase whose count is 0
is not treated as an error. The call returns normally, runs no delete and
leaves the counter at -1, a value below zero. -/
theorem C4_counterexample :
    (LightRefBase.mk 0).decStrong = (⟨-1⟩, false) ∧
    ¬ (0 ≤ (LightRefBase.mk 0).decStrong.1.mCount) := by
  decide

/-- C4 (amended): LightRefBase::decStrong has no underflow check. Issued while
the strong count is at least 1 it leaves the counter at a value that is not
below zero; issued while the strong count is 0 it returns normally, deletes
nothing and leaves the counter at -1. -/
theorem C4_decStrong_no_underflow_check (o : LightRefBase) :
    (1 ≤ o.mCount → o.mCount ≤ INT32_MAX → 0 ≤ o.decStrong.1.mCount) ∧
    (o.mCount = 0 → o.decStrong = (⟨-1⟩, false)) := by
  refine ⟨?_, ?_⟩
  · intro h1 h2
    unfold INT32_MAX at h2
    simp only [LightRefBase.decStrong, android_atomic_dec]
    unfold wrap32; omega
  · intro h
    simp only [LightRefBase.decStrong, android_atomic_dec, h]
    decide

theorem C4_decStrong_no_underflow_check_witness :
    0 ≤ (LightRefBase.mk 3).decStrong.1.mCount ∧
    (LightRefBase.mk 0).decStrong = (⟨-1⟩, false) :=
  ⟨(C4_decStrong_no_underflow_check ⟨3⟩).1 (by decide) (by decide),
    (C4_decStrong_no_underflow_check ⟨0⟩).2 rfl⟩

/-- C5: each of the four sp::operator= overloads (from sp<T>, T*, sp<U>, U*)
makes its counting calls in this order: incStrong on the new target if it is
non-null, then decStrong on the previously held target if it is non-null, and
only then stores the new pointer; it makes no other counting call. Stated
for an arbitrary counted type T and any memory. -/
theorem C5_assign_order {σ : Type} (T : Counted σ) (self : sp) (other : Ptr) (r : Run σ) :
    let incs := if other ≠ 0 then [Event.incStrong other] else []
    let decs := if self.m_ptr ≠ 0 then [Event.decStrong self.m_ptr] else []
    let mem1 := if other ≠ 0 then T.incStrong other r.mem else r.mem
    let mem2 := if self.m_ptr ≠ 0 then T.decStrong self.m_ptr mem1 else mem1
    let result : sp × Run σ := (⟨other⟩, ⟨mem2, r.log ++ incs ++ decs ++ [Event.store other]⟩)
    sp.assign T self ⟨other⟩ r = result ∧
    sp.assignPtr T self other r = result ∧
    sp.assignU T self ⟨other⟩ r = result ∧
    sp.assignPtrU T self other r = result := by
  simp only [sp.assign, sp.assignPtr, sp.assignU, sp.assignPtrU]
  by_cases h1 : other = 0 <;> by_cases h2 : self.m_ptr = 0 <;>
    simp [h1, h2, Run.incStrong, Run.decStrong, Run.store]

theorem heap_inc_dec_same (h : Heap) (p : Ptr) (n : Int)
    (hc : (h p).obj.mCount = n) (hn1 : 1 ≤ n) (hn2 : n ≤ INT32_MAX) :
    Heap.decStrong p (Heap.incStrong p h) = h := by
  unfold INT32_MAX at hn2
  have e1 : wrap32 (wrap32 (n + 1) - 1) = n := by unfold wrap32; omega
  have e2 : ¬ (wrap32 (n + 1) = 1) := by unfold wrap32; omega
  funext x
  by_cases hx : x = p
  · subst hx
    simp [Heap.decStrong, Heap.incStrong, LightRefBase.incStrong, LightRefBase.decStrong,
      android_atomic_inc, android_atomic_dec, hc, e1, e2]
    rw [← hc]
  · simp [Heap.decStrong, Heap.incStrong, Function.update_noteq hx]

/-- C6: for a non-empty strong handle a whose target has strong count n >= 1,
the self-assignment a = a, and likewise a = a.get(), leaves the target's strong
count equal to n (the memory is as before), runs no delete in its decStrong (the
count it reads is n + 1, not 1), and leaves a pointing to the same target. The
calls made are incStrong, decStrong, then the store. -/
theorem C6_self_assign (a : sp) (r : Run Heap) (n : Int)
    (ha : a.m_ptr ≠ 0) (hc : (r.mem a.m_ptr).obj.getStrongCount = n)
    (hn1 : 1 ≤ n) (hn2 : n ≤ INT32_MAX) :
    let after : sp × Run Heap := (a, ⟨r.mem, r.log ++
      [Event.incStrong a.m_ptr, Event.decStrong a.m_ptr, Event.store a.m_ptr]⟩)
    sp.assign lightRefBase a a r = after ∧
    sp.assignPtr lightRefBase a a.get r = after ∧
    (after.2.mem a.m_ptr).obj.getStrongCount = n ∧
    ((Heap.incStrong a.m_ptr r.mem) a.m_ptr).obj.decStrong.2 = false ∧
    (Heap.incStrong a.m_ptr r.mem a.m_ptr).deletes = (r.mem a.m_ptr).deletes ∧
    (after.2.mem a.m_ptr).deletes = (r.mem a.m_ptr).deletes := by
  have hm := heap_inc_dec_same r.mem a.m_ptr n hc hn1 hn2
  unfold LightRefBase.getStrongCount at hc
  unfold INT32_MAX at hn2
  have e2 : ¬ (wrap32 (n + 1) = 1) := by unfold wrap32; omega
  refine ⟨?_, ?_, ?_, ?_, ?_, ?_⟩
  · simp [sp.assign, ha, Run.incStrong, Run.decStrong, Run.store, lightRefBase, hm]
  · simp [sp.assignPtr, sp.get, ha, Run.incStrong, Run.decStrong, Run.store, lightRefBase, hm]
  · simpa [LightRefBase.getStrongCount] using hc
  · simp [Heap.incStrong, LightRefBase.incStrong, LightRefBase.decStrong,
      android_atomic_inc, android_atomic_dec, hc, e2]
  · simp [Heap.incStrong]
  · rfl

theorem count_set_of_get (l : List (Option sp)) (i : Nat) (a c b : Option sp)
    (h : l[i]? = some a) :
    (l.set i c).count b + (if a = b then 1 else 0)
      = l.count b + (if c = b then 1 else 0) := by
  induction l generalizing i with
  | nil => simp at h
  | cons x l ih =>
    cases i with
    | zero =>
      simp at h
      subst h
      simp only [List.set_cons_zero, List.count_cons, beq_iff_eq]
      omega
    | succ i =>
      simp at h
      have := ih i h
      simp only [List.set_cons_succ, List.count_cons]
      omega

theorem transfer_cell (q o p : Ptr) (h : Heap) (hp : p ≠ 0) :
    (Heap.transfer q o h p).obj.mCount
      = (if p = o then wrap32 ((if p = q then wrap32 ((h p).obj.mCount + 1)
            else (h p).obj.mCount) - 1)
          else (if p = q then wrap32 ((h p).obj.mCount + 1) else (h p).obj.mCount)) ∧
    (Heap.transfer q o h p).deletes
      = (if p = o ∧ (if p = q then wrap32 ((h p).obj.mCount + 1) else (h p).obj.mCount) = 1
          then (h p).deletes + 1 else (h p).deletes) := by
  by_cases hq : p = q <;> by_cases ho : p = o <;> by_cases q0 : q = 0 <;> by_cases o0 : o = 0 <;>
    simp_all [Heap.transfer, Heap.incStrong, Heap.decStrong, LightRefBase.incStrong,
      LightRefBase.decStrong, android_atomic_inc, android_atomic_dec, Function.update_apply]

theorem transfer_inv (h : Heap) (hs hs' : List (Option sp)) (q o : Ptr) (n : Nat)
    (hn : n + 1 < 2147483648) (hlen : hs.length ≤ n)
    (inv : ∀ p, p ≠ 0 → (h p).deletes = 0 → (h p).obj.mCount = hs.count (some ⟨p⟩))
    (ho : o ≠ 0 → 0 < hs.count (some ⟨o⟩))
    (hcount : ∀ p, p ≠ 0 → hs'.count (some ⟨p⟩) + (if p = o then 1 else 0)
      = hs.count (some ⟨p⟩) + (if p = q then 1 else 0))
    (p : Ptr) (hp : p ≠ 0) :
    ((Heap.transfer q o h p).deletes = 0 →
      (Heap.transfer q o h p).obj.mCount = hs'.count (some ⟨p⟩)) ∧
    ((h p).deletes = 0 → ((Heap.transfer q o h p).deletes ≠ 0 ↔
      0 < hs.count (some ⟨p⟩) ∧ hs'.count (some ⟨p⟩) = 0)) := by
  obtain ⟨e1, e2⟩ := transfer_cell q o p h hp
  rw [e1, e2]
  clear e1 e2
  have hle := List.count_le_length (some (sp.mk p)) hs
  have hc := hcount p hp
  have hi := inv p hp
  clear hcount inv
  by_cases hpo : p = o <;> by_cases hpq : p = q
  · subst hpo; subst hpq
    have hpos := ho hp
    clear ho
    simp only [if_true, true_and] at hc ⊢
    constructor
    · intro hd
      split at hd
      · omega
      · rw [hi hd]; clear hi; unfold wrap32; omega
    · intro hd
      rw [hi hd]
      clear hi
      have e : ¬ (wrap32 (↑(List.count (some (sp.mk p)) hs) + 1) = 1) := by unfold wrap32; omega
      simp only [e, if_false]
      omega
  · subst hpo
    have hpos := ho hp
    clear ho
    simp only [hpq, if_true, if_false, true_and] at hc ⊢
    constructor
    · intro hd
      split at hd
      · omega
      · rw [hi hd]; clear hi; unfold wrap32; omega
    · intro hd
      rw [hi hd]
      clear hi
      split <;> omega
  · subst hpq
    clear ho
    simp only [hpo, if_true, if_false, false_and] at hc ⊢
    constructor
    · intro hd
      rw [hi hd]; clear hi; unfold wrap32; omega
    · intro hd
      omega
  · clear ho
    simp only [hpo, hpq, if_false, false_and] at hc ⊢
    constructor
    · intro hd
      rw [hi hd]; omega
    · intro hd
      omega

theorem handle_get (s : Sys) (i : Nat) (a : sp) (h : s.handle i = some a) :
    s.handles[i]? = some (some a) := by
  unfold Sys.handle at h
  rw [List.getD_eq_getElem?_getD] at h
  cases e : s.handles[i]? with
  | none => simp [e] at h
  | some x => simp [e] at h; simp [h]

theorem ite_eq_swap (a b : Nat) :
    (if a = b then 1 else 0 : Nat) = (if b = a then 1 else 0) := by
  by_cases h : a = b
  · simp [h]
  · have h2 : ¬ b = a := fun e => h e.symm
    simp [h, h2]

theorem set_count (hs : List (Option sp)) (i : Nat) (o q p : Ptr)
    (h : hs[i]? = some (some ⟨o⟩)) :
    (hs.set i (some ⟨q⟩)).count (some ⟨p⟩) + (if p = o then 1 else 0)
      = hs.count (some ⟨p⟩) + (if p = q then 1 else 0) := by
  have e := count_set_of_get hs i (some ⟨o⟩) (some ⟨q⟩) (some ⟨p⟩) h
  simp only [Option.some.injEq, sp.mk.injEq] at e
  rw [ite_eq_swap p o, ite_eq_swap p q]
  exact e

theorem set_none_count (hs : List (Option sp)) (i : Nat) (o p : Ptr)
    (h : hs[i]? = some (some ⟨o⟩)) :
    (hs.set i none).count (some ⟨p⟩) + (if p = o then 1 else 0) = hs.count (some ⟨p⟩) := by
  have e := count_set_of_get hs i (some ⟨o⟩) none (some ⟨p⟩) h
  simp only [Option.some.injEq, sp.mk.injEq] at e
  rw [ite_eq_swap p o]
  simpa using e

theorem append_count (hs : List (Option sp)) (q p : Ptr) :
    (hs ++ [some (sp.mk q)]).count (some (sp.mk p))
      = hs.count (some (sp.mk p)) + (if p = q then 1 else 0) := by
  rw [List.count_append, List.count_singleton, ite_eq_swap p q]
  simp only [beq_iff_eq, Option.some.injEq, sp.mk.injEq]

theorem mem_fromPtr (p : Ptr) (r : Run Heap) :
    (sp.fromPtr lightRefBase p r).2.mem = Heap.transfer p 0 r.mem ∧
    (sp.fromPtr lightRefBase p r).1 = ⟨p⟩ := by
  by_cases h : p = 0 <;>
    simp [sp.fromPtr, Heap.transfer, Run.store, Run.incStrong, lightRefBase, h]

theorem mem_copy (o : sp) (r : Run Heap) :
    (sp.copy lightRefBase o r).2.mem = Heap.transfer o.m_ptr 0 r.mem ∧
    (sp.copy lightRefBase o r).1 = ⟨o.m_ptr⟩ := by
  by_cases h : o.m_ptr = 0 <;>
    simp [sp.copy, Heap.transfer, Run.store, Run.incStrong, lightRefBase, h]

theorem mem_assignPtr (a : sp) (p : Ptr) (r : Run Heap) :
    (sp.assignPtr lightRefBase a p r).2.mem = Heap.transfer p a.m_ptr r.mem ∧
    (sp.assignPtr lightRefBase a p r).1 = ⟨p⟩ := by
  by_cases h : p = 0 <;> by_cases h2 : a.m_ptr = 0 <;>
    simp [sp.assignPtr, Heap.transfer, Run.store, Run.incStrong, Run.decStrong, lightRefBase,
      h, h2]

theorem mem_assign (a o : sp) (r : Run Heap) :
    (sp.assign lightRefBase a o r).2.mem = Heap.transfer o.m_ptr a.m_ptr r.mem ∧
    (sp.assign lightRefBase a o r).1 = ⟨o.m_ptr⟩ := by
  by_cases h : o.m_ptr = 0 <;> by_cases h2 : a.m_ptr = 0 <;>
    simp [sp.assign, Heap.transfer, Run.store, Run.incStrong, Run.decStrong, lightRefBase,
      h, h2]

theorem mem_clear (a : sp) (r : Run Heap) :
    (sp.clear lightRefBase a r).2.mem = Heap.transfer 0 a.m_ptr r.mem ∧
    (sp.clear lightRefBase a r).1 = ⟨0⟩ := by
  by_cases h2 : a.m_ptr = 0
  · cases a
    simp only at h2
    subst h2
    simp [sp.clear, Heap.transfer]
  · simp [sp.clear, Heap.transfer, Run.store, Run.decStrong, lightRefBase, h2]

theorem mem_destroy (a : sp) (r : Run Heap) :
    (sp.destroy lightRefBase a r).mem = Heap.transfer 0 a.m_ptr r.mem := by
  by_cases h2 : a.m_ptr = 0 <;>
    simp [sp.destroy, Heap.transfer, Run.decStrong, lightRefBase, h2]

theorem transfer_null (h : Heap) : Heap.transfer 0 0 h = h := by
  simp [Heap.transfer]

theorem step_shape (s : Sys) (op : Op) :
    ∃ q o, (s.step op).run.mem = Heap.transfer q o s.run.mem ∧
      (o ≠ 0 → 0 < s.handles.count (some ⟨o⟩)) ∧
      (∀ p, p ≠ 0 → (s.step op).handles.count (some ⟨p⟩) + (if p = o then 1 else 0)
        = s.handles.count (some ⟨p⟩) + (if p = q then 1 else 0)) ∧
      (s.step op).handles.length ≤ s.handles.length + 1 := by
  have noop : ∃ q o, s.run.mem = Heap.transfer q o s.run.mem ∧
      (o ≠ 0 → 0 < s.handles.count (some ⟨o⟩)) ∧
      (∀ p, p ≠ 0 → s.handles.count (some ⟨p⟩) + (if p = o then 1 else 0)
        = s.handles.count (some ⟨p⟩) + (if p = q then 1 else 0)) ∧
      s.handles.length ≤ s.handles.length + 1 :=
    ⟨0, 0, (transfer_null _).symm, fun h => absurd rfl h, fun _ _ => rfl, Nat.le_succ _⟩
  cases op with
  | fromPtr p =>
    refine ⟨p, 0, ?_, fun h => absurd rfl h, ?_, ?_⟩
    · simp only [Sys.step, (mem_fromPtr p s.run).1]
    · intro x hx
      simp only [Sys.step, (mem_fromPtr p s.run).2, append_count, hx, if_false]
      omega
    · simp [Sys.step]
  | copy j =>
    cases hj : s.handle j with
    | none => simpa [Sys.step, hj] using noop
    | some o =>
      refine ⟨o.m_ptr, 0, ?_, fun h => absurd rfl h, ?_, ?_⟩
      · simp only [Sys.step, hj, (mem_copy o s.run).1]
      · intro x hx
        simp only [Sys.step, hj, (mem_copy o s.run).2, append_count, hx, if_false]
        omega
      · simp [Sys.step, hj]
  | assignPtr i p =>
    cases hi : s.handle i with
    | none => simpa [Sys.step, hi] using noop
    | some a =>
      have hg := handle_get s i a hi
      refine ⟨p, a.m_ptr, ?_, fun _ => List.count_pos_iff.mpr (List.getElem?_mem hg), ?_, ?_⟩
      · simp only [Sys.step, hi, (mem_assignPtr a p s.run).1]
      · intro x _
        simp only [Sys.step, hi, (mem_assignPtr a p s.run).2]
        exact set_count s.handles i a.m_ptr p x hg
      · simp [Sys.step, hi]
  | assign i j =>
    cases hi : s.handle i with
    | none => simpa [Sys.step, hi] using noop
    | some a =>
      cases hj : s.handle j with
      | none => simpa [Sys.step, hi, hj] using noop
      | some o =>
        have hg := handle_get s i a hi
        refine ⟨o.m_ptr, a.m_ptr, ?_,
          fun _ => List.count_pos_iff.mpr (List.getElem?_mem hg), ?_, ?_⟩
        · simp only [Sys.step, hi, hj, (mem_assign a o s.run).1]
        · intro x _
          simp only [Sys.step, hi, hj, (mem_assign a o s.run).2]
          exact set_count s.handles i a.m_ptr o.m_ptr x hg
        · simp [Sys.step, hi, hj]
  | clear i =>
    cases hi : s.handle i with
    | none => simpa [Sys.step, hi] using noop
    | some a =>
      have hg := handle_get s i a hi
      refine ⟨0, a.m_ptr, ?_, fun _ => List.count_pos_iff.mpr (List.getElem?_mem hg), ?_, ?_⟩
      · simp only [Sys.step, hi, (mem_clear a s.run).1]
      · intro x _
        simp only [Sys.step, hi, (mem_clear a s.run).2]
        exact set_count s.handles i a.m_ptr 0 x hg
      · simp [Sys.step, hi]
  | destroy i =>
    cases hi : s.handle i with
    | none => simpa [Sys.step, hi] using noop
    | some a =>
      have hg := handle_get s i a hi
      refine ⟨0, a.m_ptr, ?_, fun _ => List.count_pos_iff.mpr (List.getElem?_mem hg), ?_, ?_⟩
      · simp only [Sys.step, hi, mem_destroy a s.run]
      · intro x hx
        simp only [Sys.step, hi, hx, if_false, Nat.add_zero]
        exact set_none_count s.handles i a.m_ptr x hg
      · simp [Sys.step, hi]

theorem step_inv (s : Sys) (op : Op) (n : Nat) (hn : n + 1 < 2147483648) (hinv : s.Inv n) :
    (s.step op).Inv (n + 1) ∧
    ∀ p, p ≠ 0 → ¬ s.deleted p →
      ((s.step op).deleted p ↔ 0 < s.pointing p ∧ (s.step op).pointing p = 0) := by
  obtain ⟨q, o, hmem, ho, hcount, hlen⟩ := step_shape s op
  have key := transfer_inv s.run.mem s.handles (s.step op).handles q o n hn hinv.1 hinv.2 ho hcount
  refine ⟨⟨by have := hinv.1; omega, ?_⟩, ?_⟩
  · intro p hp
    rw [hmem]
    exact (key p hp).1
  · intro p hp hd
    unfold Sys.deleted at hd ⊢
    unfold Sys.pointing
    rw [hmem]
    exact (key p hp).2 (by simpa using hd)

theorem exec_inv (ops : List Op) (s : Sys) (n : Nat)
    (hn : n + ops.length < 2147483648) (hinv : s.Inv n) :
    (s.exec ops).Inv (n + ops.length) := by
  induction ops generalizing s n with
  | nil => simpa [Sys.exec] using hinv
  | cons op ops ih =>
    simp only [List.length_cons] at hn
    have h1 := (step_inv s op n (by omega) hinv).1
    have h2 := ih (s.step op) (n + 1) (by omega) h1
    simp only [Sys.exec, List.foldl_cons, List.length_cons] at h2 ⊢
    have e : n + (ops.length + 1) = n + 1 + ops.length := by omega
    rw [e]
    exact h2

theorem init_inv : Sys.init.Inv 0 := by
  refine ⟨by simp [Sys.init], ?_⟩
  intro p _ _
  simp [Sys.init, Heap.fresh, LightRefBase.new]

theorem C6_self_assign_witness :
    sp.assign lightRefBase ⟨5⟩ ⟨5⟩ (sp.fromPtr lightRefBase 5 ⟨Heap.fresh, []⟩).2
      = (⟨5⟩, ⟨(sp.fromPtr lightRefBase 5 ⟨Heap.fresh, []⟩).2.mem,
          (sp.fromPtr lightRefBase 5 ⟨Heap.fresh, []⟩).2.log ++
            [Event.incStrong 5, Event.decStrong 5, Event.store 5]⟩) :=
  (C6_self_assign ⟨5⟩ (sp.fromPtr lightRefBase 5 ⟨Heap.fresh, []⟩).2 1
    (by decide) (by decide) (by decide) (by decide)).1

/-- C7: strong-handle accounting. Start from fresh objects (count 0) and no
handle, and run any sequence of sp statements (construction from a raw pointer,
copy construction, assignment from a raw pointer or from another sp, clear,
destruction), fewer than 2^31 of them so that no count overflows. Then the
strong count of every object that has not been deleted is the number of live
handles pointing to it; the next statement deletes such an object exactly when
it drops the last handle pointing to it; and constructing a handle from a null
pointer or from an empty handle makes no counting call and leaves the memory as
it was. -/
theorem C7_strong_accounting (ops : List Op) (op : Op) (p : Ptr)
    (hlen : ops.length + 1 < 2147483648) (hp : p ≠ 0) :
    (¬ (Sys.init.exec ops).deleted p →
      (Sys.init.exec ops).strongCount p = (Sys.init.exec ops).pointing p) ∧
    (¬ (Sys.init.exec ops).deleted p →
      (((Sys.init.exec ops).step op).deleted p ↔
        0 < (Sys.init.exec ops).pointing p ∧ ((Sys.init.exec ops).step op).pointing p = 0)) ∧
    (∀ r : Run Heap,
      sp.fromPtr lightRefBase 0 r = (⟨0⟩, ⟨r.mem, r.log ++ [Event.store 0]⟩) ∧
      sp.copy lightRefBase ⟨0⟩ r = (⟨0⟩, ⟨r.mem, r.log ++ [Event.store 0]⟩)) := by
  have hinv := exec_inv ops Sys.init 0 (by omega) init_inv
  rw [Nat.zero_add] at hinv
  refine ⟨?_, ?_, ?_⟩
  · intro hd
    unfold Sys.deleted at hd
    exact hinv.2 p hp (by simpa using hd)
  · intro hd
    exact (step_inv _ op ops.length hlen hinv).2 p hp hd
  · intro r
    simp [sp.fromPtr, sp.copy, Run.store]

theorem C7_strong_accounting_witness :
    (Sys.init.exec [Op.fromPtr 7, Op.copy 0, Op.destroy 0]).strongCount 7 = 1 ∧
    ((Sys.init.exec [Op.fromPtr 7, Op.copy 0, Op.destroy 0]).step (Op.destroy 1)).deleted 7 :=
  ⟨(C7_strong_accounting [Op.fromPtr 7, Op.copy 0, Op.destroy 0] (Op.destroy 1) 7
      (by decide) (by decide)).1 (by decide),
   ((C7_strong_accounting [Op.fromPtr 7, Op.copy 0, Op.destroy 0] (Op.destroy 1) 7
      (by decide) (by decide)).2.1 (by decide)).mpr (by decide)⟩

/-- C8: for a weak handle w, promote() returns a non-empty strong handle, whose
pointer is w's raw pointer, if and only if w's raw pointer is non-null and
attemptIncStrong on w's block returns true; in every other case it returns an
empty strong handle. attemptIncStrong is called once when the raw pointer is
non-null and not at all when it is null, promote() makes no other counting call
(and touches the memory only through that call), and w is as before. -/
theorem C8_promote {σ : Type} (attemptIncStrong : Ptr → σ → Bool × σ) (w : wp) (r : Run σ) :
    ((w.promote attemptIncStrong r).1 = ⟨w.m_ptr⟩ ∧ (w.promote attemptIncStrong r).1.m_ptr ≠ 0
      ↔ w.m_ptr ≠ 0 ∧ (attemptIncStrong w.m_refs r.mem).1 = true) ∧
    (¬ (w.m_ptr ≠ 0 ∧ (attemptIncStrong w.m_refs r.mem).1 = true) →
      (w.promote attemptIncStrong r).1 = ⟨0⟩) ∧
    ((w.promote attemptIncStrong r).2.2.log.filter Event.isCountingCall
      = r.log.filter Event.isCountingCall ++
        (if w.m_ptr ≠ 0 then [Event.attemptIncStrong w.m_refs] else [])) ∧
    ((w.promote attemptIncStrong r).2.2.mem
      = if w.m_ptr ≠ 0 then (attemptIncStrong w.m_refs r.mem).2 else r.mem) ∧
    (w.promote attemptIncStrong r).2.1 = w := by
  by_cases hp : w.m_ptr = 0
  · simp [wp.promote, sp.fromWeak, hp, Run.store, Event.isCountingCall]
  · by_cases ha : (attemptIncStrong w.m_refs r.mem).1 = true
    · simp [wp.promote, sp.fromWeak, hp, ha, Run.store, Event.isCountingCall]
    · simp [wp.promote, sp.fromWeak, hp, ha, Run.store, Event.isCountingCall]

theorem C8_promote_witness :
    (wp.promote (fun (_ : Ptr) (m : Nat) => (false, m)) ⟨4, 9⟩ ⟨0, []⟩).1 = ⟨0⟩ :=
  (C8_promote (fun (_ : Ptr) (m : Nat) => (false, m)) ⟨4, 9⟩ ⟨0, []⟩).2.1 (by decide)

/-- C9: for weak handles a, b of the same pointee type, a == b holds iff the raw
pointers and the blocks are both identical; a < b is the lexicographic order on
(raw pointer, block); a > b is its converse; exactly one of a < b, a == b,
a > b holds; < is irreflexive and transitive; a <= b iff (a < b or a == b); and
a >= b iff (a > b or a == b). -/
theorem C9_wp_order (a b c : wp) :
    (a.op_eq b = true ↔ a.m_ptr = b.m_ptr ∧ a.m_refs = b.m_refs) ∧
    (a.op_lt b = true ↔
      a.m_ptr < b.m_ptr ∨ (a.m_ptr = b.m_ptr ∧ a.m_refs < b.m_refs)) ∧
    a.op_gt b = b.op_lt a ∧
    ((a.op_lt b = true ∧ a.op_eq b = false ∧ a.op_gt b = false) ∨
     (a.op_lt b = false ∧ a.op_eq b = true ∧ a.op_gt b = false) ∨
     (a.op_lt b = false ∧ a.op_eq b = false ∧ a.op_gt b = true)) ∧
    a.op_lt a = false ∧
    (a.op_lt b = true → b.op_lt c = true → a.op_lt c = true) ∧
    (a.op_le b = true ↔ (a.op_lt b = true ∨ a.op_eq b = true)) ∧
    (a.op_ge b = true ↔ (a.op_gt b = true ∨ a.op_eq b = true)) := by
  obtain ⟨ap, ar⟩ := a
  obtain ⟨bp, br⟩ := b
  obtain ⟨cp, cr⟩ := c
  refine ⟨?_, ?_, ?_, ?_, ?_, ?_, ?_, ?_⟩
  · simp [wp.op_eq]
  · by_cases h : ap = bp <;> simp [wp.op_lt, h]
  · by_cases h : ap = bp
    · simp [wp.op_lt, wp.op_gt, h]
    · have h2 : ¬ bp = ap := fun e => h e.symm
      simp [wp.op_lt, wp.op_gt, h, h2]
  · by_cases h : ap = bp <;> by_cases h2 : ar = br <;>
      simp [wp.op_lt, wp.op_gt, wp.op_eq, h, h2] <;>
      (unfold Ptr at *; omega)
  · simp [wp.op_lt]
  · simp only [wp.op_lt, beq_iff_eq]
    split_ifs <;> simp only [decide_eq_true_eq] <;> (unfold Ptr at *; omega)
  · by_cases h : ap = bp <;> by_cases h2 : ar = br <;>
      simp [wp.op_lt, wp.op_gt, wp.op_le, wp.op_eq, h, h2] <;>
      (unfold Ptr at *; omega)
  · by_cases h : ap = bp <;> by_cases h2 : ar = br <;>
      simp [wp.op_lt, wp.op_gt, wp.op_ge, wp.op_eq, h, h2] <;>
      (unfold Ptr at *; omega)

theorem C9_wp_order_witness :
    (wp.mk 1 5).op_lt ⟨1, 8⟩ = true ∧ (wp.mk 1 8).op_lt ⟨2, 3⟩ = true ∧
    (wp.mk 1 5).op_lt ⟨2, 3⟩ = true :=
  ⟨by decide, by decide,
    (C9_wp_order ⟨1, 5⟩ ⟨1, 8⟩ ⟨2, 3⟩).2.2.2.2.2.1 (by decide) (by decide)⟩

/-- C10 (code defect): `operator != (const wp<T>&)` compares the blocks only, so
it is not the negation of `operator ==`. For a handle that was cleared (null raw
pointer, block kept) and a live copy with the same block, the raw pointers
differ, `==` is false, and `!=` is false as well. -/
theorem C10_ne_is_not_negation_of_eq :
    (wp.mk 0 9).m_ptr ≠ (wp.mk 5 9).m_ptr ∧
    (wp.mk 0 9).op_eq ⟨5, 9⟩ = false ∧
    (wp.mk 0 9).op_ne ⟨5, 9⟩ = false := by
  decide

/-- C11 (code defect): `template<U> operator == (const wp<U>&)` compares the raw
pointers only, while `<` and `>` for `wp<U>` also compare the blocks. For two
handles with the same raw pointer and different blocks (a stale handle and a
handle to a new object at the same address) `==` is true although the blocks
differ, `<` is true at the same time, and `!=` is false although `<` holds. -/
theorem C11_eq_U_ignores_block :
    (wp.mk 5 1).m_ptr = (wp.mk 5 2).m_ptr ∧
    (wp.mk 5 1).m_refs ≠ (wp.mk 5 2).m_refs ∧
    (wp.mk 5 1).op_eq_U ⟨5, 2⟩ = true ∧
    (wp.mk 5 1).op_lt_U ⟨5, 2⟩ = true ∧
    (wp.mk 5 1).op_ne_U ⟨5, 2⟩ = false := by
  decide

/-- C12: for a strong handle a and a right operand b that is a strong handle, a
weak handle or a raw pointer (of the same or a convertible pointee type), and
for each of ==, !=, <, >, <=, >=, the result of a op b is the built-in
comparison of the two raw pointers; the same holds for a weak handle compared
with a strong handle or a raw pointer. So the six operators are the total order
of the raw pointers: != is the negation of ==, exactly one of <, ==, > holds,
<= is (< or ==), >= is (> or ==), < is transitive and == is the equality of the
raw pointers. -/
theorem C12_compare_raw (op : CmpOp) (a b c : sp) (w : wp) (p : Ptr) :
    (a.compare_sp op b = op.onPtr a.m_ptr b.m_ptr ∧
     a.compare_ptr op p = op.onPtr a.m_ptr p ∧
     a.compare_spU op b = op.onPtr a.m_ptr b.m_ptr ∧
     a.compare_ptrU op p = op.onPtr a.m_ptr p ∧
     a.compare_wp op w = op.onPtr a.m_ptr w.m_ptr ∧
     a.compare_wpU op w = op.onPtr a.m_ptr w.m_ptr) ∧
    (w.compare_sp op a = op.onPtr w.m_ptr a.m_ptr ∧
     w.compare_ptr op p = op.onPtr w.m_ptr p ∧
     w.compare_spU op a = op.onPtr w.m_ptr a.m_ptr ∧
     w.compare_ptrU op p = op.onPtr w.m_ptr p) ∧
    ((a.compare_sp .eq b = true ↔ a.m_ptr = b.m_ptr) ∧
     a.compare_sp .ne b = !(a.compare_sp .eq b) ∧
     a.compare_sp .gt b = b.compare_sp .lt a ∧
     ((a.compare_sp .lt b = true ∧ a.compare_sp .eq b = false ∧ a.compare_sp .gt b = false) ∨
      (a.compare_sp .lt b = false ∧ a.compare_sp .eq b = true ∧ a.compare_sp .gt b = false) ∨
      (a.compare_sp .lt b = false ∧ a.compare_sp .eq b = false ∧ a.compare_sp .gt b = true)) ∧
     a.compare_sp .le b = (a.compare_sp .lt b || a.compare_sp .eq b) ∧
     a.compare_sp .ge b = (a.compare_sp .gt b || a.compare_sp .eq b) ∧
     (a.compare_sp .lt b = true → b.compare_sp .lt c = true → a.compare_sp .lt c = true)) := by
  obtain ⟨x⟩ := a
  obtain ⟨y⟩ := b
  obtain ⟨z⟩ := c
  refine ⟨⟨rfl, rfl, rfl, rfl, rfl, rfl⟩, ⟨rfl, rfl, rfl, rfl⟩, ?_, rfl, ?_, ?_, ?_, ?_, ?_⟩
  · simp [sp.compare_sp, CmpOp.onPtr]
  · simp [sp.compare_sp, CmpOp.onPtr]
  · simp only [sp.compare_sp, CmpOp.onPtr]
    rcases Nat.lt_trichotomy x y with h | h | h
    · have h1 : ¬ x = y := Nat.ne_of_lt h
      have h2 : ¬ y < x := Nat.lt_asymm h
      simp [h, h1, h2]
    · subst h
      simp
    · have h1 : ¬ x = y := fun e => Nat.lt_irrefl _ (e ▸ h)
      have h2 : ¬ x < y := Nat.lt_asymm h
      simp [h, h1, h2]
  · simp only [sp.compare_sp, CmpOp.onPtr]
    rw [Bool.eq_iff_iff]
    simp only [decide_eq_true_eq, Bool.or_eq_true, beq_iff_eq]
    exact Nat.le_iff_lt_or_eq
  · simp only [sp.compare_sp, CmpOp.onPtr]
    rw [Bool.eq_iff_iff]
    simp only [decide_eq_true_eq, Bool.or_eq_true, beq_iff_eq, ge_iff_le, gt_iff_lt]
    rw [eq_comm (a := x)]
    exact Nat.le_iff_lt_or_eq
  · simp only [sp.compare_sp, CmpOp.onPtr, decide_eq_true_eq]
    exact fun h1 h2 => Nat.lt_trans h1 h2

theorem C12_compare_raw_witness :
    (sp.mk 1).compare_sp .lt ⟨2⟩ = true ∧ (sp.mk 2).compare_sp .lt ⟨3⟩ = true ∧
    (sp.mk 1).compare_sp .lt ⟨3⟩ = true :=
  ⟨by decide, by decide,
    (C12_compare_raw .lt ⟨1⟩ ⟨2⟩ ⟨3⟩ ⟨0, 0⟩ 0).2.2.2.2.2.2.2.2 (by decide) (by decide)⟩

/-- C13: for a non-null target, constructing a weak handle from a raw pointer
or from a strong handle (same or convertible pointee type) calls createWeak on
the target exactly once and stores exactly the block it returns; so, createWeak
returning the same block for the object both times, a weak handle built from
the raw pointer and one built from a strong handle to the same object hold the
same block and compare equal. For a null pointer or an empty strong handle no
block-creation or counting call is made and the memory is as before. -/
theorem C13_wp_construct {σ : Type} (W : Weak σ) (uninit other : Ptr) (r r2 : Run σ) :
    (other ≠ 0 →
      wp.fromPtr W uninit other r
        = (⟨other, (W.createWeak other r.mem).1⟩, ⟨(W.createWeak other r.mem).2,
            r.log ++ [Event.store other, Event.createWeak other,
              Event.storeRefs (W.createWeak other r.mem).1]⟩) ∧
      wp.fromPtrU W uninit other r = wp.fromPtr W uninit other r ∧
      wp.fromSp W uninit ⟨other⟩ r = wp.fromPtr W uninit other r ∧
      wp.fromSpU W uninit ⟨other⟩ r = wp.fromPtr W uninit other r) ∧
    (other ≠ 0 → (W.createWeak other r.mem).1 = (W.createWeak other r2.mem).1 →
      (wp.fromPtr W uninit other r).1.m_refs = (wp.fromSp W uninit ⟨other⟩ r2).1.m_refs ∧
      (wp.fromPtr W uninit other r).1 = (wp.fromSp W uninit ⟨other⟩ r2).1 ∧
      (wp.fromPtr W uninit other r).1.op_eq (wp.fromSp W uninit ⟨other⟩ r2).1 = true) ∧
    (wp.fromPtr W uninit 0 r = (⟨0, uninit⟩, ⟨r.mem, r.log ++ [Event.store 0]⟩) ∧
     wp.fromPtrU W uninit 0 r = (⟨0, uninit⟩, ⟨r.mem, r.log ++ [Event.store 0]⟩) ∧
     wp.fromSp W uninit ⟨0⟩ r = (⟨0, uninit⟩, ⟨r.mem, r.log ++ [Event.store 0]⟩) ∧
     wp.fromSpU W uninit ⟨0⟩ r = (⟨0, uninit⟩, ⟨r.mem, r.log ++ [Event.store 0]⟩)) := by
  refine ⟨?_, ?_, ?_⟩
  · intro h
    simp [wp.fromPtr, wp.fromPtrU, wp.fromSp, wp.fromSpU, h, Run.store, Run.createWeak,
      Run.storeRefs]
  · intro h e
    simp [wp.fromPtr, wp.fromSp, h, Run.store, Run.createWeak, Run.storeRefs, wp.op_eq, e]
  · simp [wp.fromPtr, wp.fromPtrU, wp.fromSp, wp.fromSpU, Run.store]

theorem C13_wp_construct_witness :
    (wp.fromPtr (Weak.mk (fun p (m : Nat) => (p + 100, m + 1)) (fun _ m => m) (fun _ m => m))
      0 7 ⟨0, []⟩).1
      = (wp.fromSp (Weak.mk (fun p (m : Nat) => (p + 100, m + 1)) (fun _ m => m) (fun _ m => m))
          0 ⟨7⟩ ⟨1, []⟩).1 :=
  ((C13_wp_construct (Weak.mk (fun p (m : Nat) => (p + 100, m + 1)) (fun _ m => m) (fun _ m => m))
    0 7 ⟨0, []⟩ ⟨1, []⟩).2.1 (by decide) (by decide)).2.1

/-- C18: clear() is idempotent on both handle kinds. sp::clear() on a non-empty
handle calls decStrong exactly once on its target and leaves the handle empty,
on an empty handle it does nothing, and a second clear() makes no call.
wp::clear() on a handle with a non-null raw pointer calls decWeak exactly once
on its block, sets the raw pointer to null and leaves the stored block pointer
unchanged; with a null raw pointer it does nothing, and a second clear() makes
no call. -/
theorem C18_clear_idempotent {σ : Type} (T : Counted σ) (W : Weak σ) (s : sp) (w : wp)
    (r : Run σ) :
    (s.m_ptr ≠ 0 → sp.clear T s r
      = (⟨0⟩, ⟨T.decStrong s.m_ptr r.mem,
          r.log ++ [Event.decStrong s.m_ptr, Event.store 0]⟩)) ∧
    (s.m_ptr = 0 → sp.clear T s r = (s, r)) ∧
    sp.clear T (sp.clear T s r).1 (sp.clear T s r).2 = sp.clear T s r ∧
    (w.m_ptr ≠ 0 → wp.clear W w r
      = (⟨0, w.m_refs⟩, ⟨W.decWeak w.m_refs r.mem,
          r.log ++ [Event.decWeak w.m_refs, Event.store 0]⟩)) ∧
    (w.m_ptr = 0 → wp.clear W w r = (w, r)) ∧
    wp.clear W (wp.clear W w r).1 (wp.clear W w r).2 = wp.clear W w r := by
  refine ⟨?_, ?_, ?_, ?_, ?_, ?_⟩
  · intro h
    simp [sp.clear, h, Run.decStrong, Run.store]
  · intro h
    simp [sp.clear, h]
  · by_cases h : s.m_ptr = 0 <;> simp [sp.clear, h]
  · intro h
    simp [wp.clear, h, Run.decWeak, Run.store]
  · intro h
    simp [wp.clear, h]
  · by_cases h : w.m_ptr = 0 <;> simp [wp.clear, h]

theorem C18_clear_idempotent_witness :
    sp.clear lightRefBase ⟨5⟩ ⟨Heap.fresh, []⟩
      = (⟨0⟩, ⟨lightRefBase.decStrong 5 Heap.fresh, [] ++ [Event.decStrong 5, Event.store 0]⟩) :=
  (C18_clear_idempotent lightRefBase
    (Weak.mk (fun p m => (p, m)) (fun _ m => m) (fun _ m => m)) ⟨5⟩ ⟨0, 0⟩
    ⟨Heap.fresh, []⟩).1 (by decide)

theorem wp_assign_from_target {σ : Type} (W : Weak σ) (self : wp) (other : Ptr) (r : Run σ) :
    let acq := if other ≠ 0 then [Event.createWeak other] else []
    let newRefs := if other ≠ 0 then (W.createWeak other r.mem).1 else 0
    let mem1 := if other ≠ 0 then (W.createWeak other r.mem).2 else r.mem
    let rel := if self.m_ptr ≠ 0 then [Event.decWeak self.m_refs] else []
    let mem2 := if self.m_ptr ≠ 0 then W.decWeak self.m_refs mem1 else mem1
    let result : wp × Run σ := (⟨other, newRefs⟩,
      ⟨mem2, r.log ++ acq ++ rel ++ [Event.store other, Event.storeRefs newRefs]⟩)
    wp.assignPtr W self other r = result ∧
    wp.assignPtrU W self other r = result ∧
    wp.assignSp W self ⟨other⟩ r = result ∧
    wp.assignSpU W self ⟨other⟩ r = result := by
  by_cases h1 : other = 0 <;> by_cases h2 : self.m_ptr = 0 <;>
    simp [wp.assignPtr, wp.assignPtrU, wp.assignSp, wp.assignSpU, sp.compare_ptr, CmpOp.onPtr,
      h1, h2, Run.createWeak, Run.decWeak, Run.store, Run.storeRefs]

theorem wp_assign_from_weak {σ : Type} (W : Weak σ) (self other : wp) (r : Run σ) :
    let acq := if other.m_ptr ≠ 0 then [Event.incWeak other.m_refs] else []
    let mem1 := if other.m_ptr ≠ 0 then W.incWeak other.m_refs r.mem else r.mem
    let rel := if self.m_ptr ≠ 0 then [Event.decWeak self.m_refs] else []
    let mem2 := if self.m_ptr ≠ 0 then W.decWeak self.m_refs mem1 else mem1
    let result : wp × Run σ := (other,
      ⟨mem2, r.log ++ acq ++ rel ++ [Event.store other.m_ptr, Event.storeRefs other.m_refs]⟩)
    wp.assign W self other r = result ∧
    wp.assignU W self other r = result ∧
    wp.set_object_and_refs W self other.m_ptr other.m_refs r = result := by
  obtain ⟨op, orefs⟩ := other
  by_cases h1 : op = 0 <;> by_cases h2 : self.m_ptr = 0 <;>
    simp [wp.assign, wp.assignU, wp.set_object_and_refs,
      h1, h2, Run.incWeak, Run.decWeak, Run.store, Run.storeRefs]

/-- C14: the lifetime policy decides destruction on the strong count's 1 to 0
transition in decStrong. With the default policy (flags 0) the object is
destroyed unconditionally; with OBJECT_LIFETIME_WEAK it is destroyed only when
the weak count is also 0, and otherwise it survives decStrong and every later
counting call until the decWeak that drops the last weak reference, which
destroys it; with OBJECT_LIFETIME_FOREVER no counting operation destroys it. A
decStrong that is not the 1 to 0 transition destroys nothing. -/
theorem C14_lifetime_policy (b : ReferenceBlock) (hook : Bool) :
    (LifetimePolicy.STRONG_ONLY.flags = 0 ∧
     LifetimePolicy.WEAK_EXTENDS_LIFE.flags = OBJECT_LIFETIME_WEAK ∧
     LifetimePolicy.FOREVER.flags = OBJECT_LIFETIME_FOREVER) ∧
    (b.strongCount ≠ 1 → b.decStrong.destroyed = b.destroyed) ∧
    (b.strongCount = 1 → b.lifetimePolicy = .STRONG_ONLY →
      b.decStrong.destroyed = b.destroyed + 1) ∧
    (b.strongCount = 1 → b.lifetimePolicy = .WEAK_EXTENDS_LIFE →
      (b.weakCount = 0 → b.decStrong.destroyed = b.destroyed + 1) ∧
      (b.weakCount ≠ 0 → b.decStrong.destroyed = b.destroyed ∧
        b.decStrong.strongCount = 0 ∧ b.decStrong.weakCount = b.weakCount ∧
        b.decStrong.lifetimePolicy = .WEAK_EXTENDS_LIFE)) ∧
    (b.lifetimePolicy = .WEAK_EXTENDS_LIFE → b.strongCount = 0 →
      (b.weakCount ≠ 1 → b.decWeak.destroyed = b.destroyed) ∧
      (b.weakCount = 1 → b.decWeak.destroyed = b.destroyed + 1) ∧
      b.incWeak.destroyed = b.destroyed ∧
      b.incStrong.destroyed = b.destroyed ∧
      (b.attemptIncStrong hook).2.destroyed = b.destroyed) ∧
    (b.lifetimePolicy = .FOREVER →
      b.incStrong.destroyed = b.destroyed ∧
      b.decStrong.destroyed = b.destroyed ∧
      b.forceIncStrong.destroyed = b.destroyed ∧
      b.incWeak.destroyed = b.destroyed ∧
      b.decWeak.destroyed = b.destroyed ∧
      (b.attemptIncStrong hook).2.destroyed = b.destroyed) := by
  obtain ⟨sc, wc, pol, d⟩ := b
  refine ⟨⟨rfl, rfl, rfl⟩, ?_, ?_, ?_, ?_, ?_⟩
  · intro h
    simp only at h
    simp [ReferenceBlock.decStrong, android_atomic_dec, h]
  · intro h hp
    simp only at h hp
    subst h; subst hp
    simp [ReferenceBlock.decStrong, android_atomic_dec, ReferenceBlock.destroy]
  · intro h hp
    simp only at h hp
    subst h; subst hp
    refine ⟨?_, ?_⟩
    · intro hw
      simp only at hw
      simp [ReferenceBlock.decStrong, android_atomic_dec, ReferenceBlock.destroy, hw]
    · intro hw
      simp only at hw
      simp [ReferenceBlock.decStrong, android_atomic_dec, ReferenceBlock.destroy, hw]
      decide
  · intro hp h
    simp only at h hp
    subst h; subst hp
    refine ⟨?_, ?_, ?_, ?_, ?_⟩
    · intro hw
      simp only at hw
      simp [ReferenceBlock.decWeak, android_atomic_dec, hw]
    · intro hw
      simp only at hw
      simp [ReferenceBlock.decWeak, android_atomic_dec, ReferenceBlock.destroy, hw]
    · simp [ReferenceBlock.incWeak]
    · simp [ReferenceBlock.incStrong]
    · cases hook <;> simp [ReferenceBlock.attemptIncStrong]
  · intro hp
    simp only at hp
    subst hp
    refine ⟨?_, ?_, ?_, ?_, ?_, ?_⟩
    · simp [ReferenceBlock.incStrong]
    · by_cases h : sc = 1 <;> simp [ReferenceBlock.decStrong, android_atomic_dec, h]
    · simp [ReferenceBlock.forceIncStrong]
    · simp [ReferenceBlock.incWeak]
    · simp [ReferenceBlock.decWeak, android_atomic_dec]
    · by_cases h : 0 < sc <;> cases hook <;> simp [ReferenceBlock.attemptIncStrong, h]

theorem C14_lifetime_policy_witness :
    (ReferenceBlock.mk 1 2 .WEAK_EXTENDS_LIFE 0).decStrong.destroyed = 0 ∧
    (ReferenceBlock.mk 0 1 .WEAK_EXTENDS_LIFE 0).decWeak.destroyed = 0 + 1 ∧
    (ReferenceBlock.mk 1 2 .STRONG_ONLY 0).decStrong.destroyed = 0 + 1 ∧
    (ReferenceBlock.mk 1 0 .FOREVER 0).decStrong.destroyed = 0 :=
  ⟨(((C14_lifetime_policy ⟨1, 2, .WEAK_EXTENDS_LIFE, 0⟩ true).2.2.2.1 rfl rfl).2
      (by decide)).1,
   ((C14_lifetime_policy ⟨0, 1, .WEAK_EXTENDS_LIFE, 0⟩ true).2.2.2.2.1 rfl rfl).2.1 rfl,
   (C14_lifetime_policy ⟨1, 2, .STRONG_ONLY, 0⟩ true).2.2.1 rfl rfl,
   ((C14_lifetime_policy ⟨1, 0, .FOREVER, 0⟩ true).2.2.2.2.2 rfl).2.1⟩

/-- C15: for a weak handle w to an object whose strong count is above 0 (and
below the largest int32), w.promote() returns a non-empty strong handle to w's
object and raises the strong count by exactly one, changing nothing else; for a
weak handle w to an object under the default STRONG_ONLY policy whose strong
count is 0, w.promote() returns an empty handle and leaves every block as it
was. -/
theorem C15_promote_by_policy (hook : Ptr → Bool) (w : wp) (r : Run RefHeap)
    (hw : w.m_ptr ≠ 0) :
    (0 < (r.mem w.m_refs).strongCount → (r.mem w.m_refs).strongCount < INT32_MAX →
      (w.promote (RefHeap.attemptIncStrong hook) r).1 = ⟨w.m_ptr⟩ ∧
      (w.promote (RefHeap.attemptIncStrong hook) r).1.m_ptr ≠ 0 ∧
      (w.promote (RefHeap.attemptIncStrong hook) r).2.2.mem
        = Function.update r.mem w.m_refs
            { r.mem w.m_refs with strongCount := (r.mem w.m_refs).strongCount + 1 }) ∧
    ((r.mem w.m_refs).lifetimePolicy = .STRONG_ONLY → (r.mem w.m_refs).strongCount = 0 →
      (w.promote (RefHeap.attemptIncStrong hook) r).1 = ⟨0⟩ ∧
      (w.promote (RefHeap.attemptIncStrong hook) r).2.2.mem = r.mem) := by
  refine ⟨?_, ?_⟩
  · intro h1 h2
    have e : wrap32 ((r.mem w.m_refs).strongCount + 1) = (r.mem w.m_refs).strongCount + 1 := by
      unfold INT32_MAX at h2
      unfold wrap32
      omega
    refine ⟨?_, ?_, ?_⟩
    · simp [wp.promote, sp.fromWeak, hw, RefHeap.attemptIncStrong,
        ReferenceBlock.attemptIncStrong, h1]
    · simp [wp.promote, sp.fromWeak, hw, RefHeap.attemptIncStrong,
        ReferenceBlock.attemptIncStrong, h1]
    · simp [wp.promote, sp.fromWeak, hw, RefHeap.attemptIncStrong,
        ReferenceBlock.attemptIncStrong, h1, Run.store, e]
  · intro hp h0
    have hn : ¬ (0 < (r.mem w.m_refs).strongCount) := by omega
    refine ⟨?_, ?_⟩
    · simp [wp.promote, sp.fromWeak, hw, RefHeap.attemptIncStrong,
        ReferenceBlock.attemptIncStrong, hn, hp]
    · simp [wp.promote, sp.fromWeak, hw, RefHeap.attemptIncStrong,
        ReferenceBlock.attemptIncStrong, hn, hp, Run.store]

theorem C15_promote_by_policy_witness :
    (wp.promote (RefHeap.attemptIncStrong (fun _ => true)) ⟨4, 9⟩
      ⟨fun _ => ⟨2, 3, .STRONG_ONLY, 0⟩, []⟩).1 = ⟨4⟩ ∧
    (wp.promote (RefHeap.attemptIncStrong (fun _ => true)) ⟨4, 9⟩
      ⟨fun _ => ⟨0, 3, .STRONG_ONLY, 1⟩, []⟩).1 = ⟨0⟩ :=
  ⟨((C15_promote_by_policy (fun _ => true) ⟨4, 9⟩ ⟨fun _ => ⟨2, 3, .STRONG_ONLY, 0⟩, []⟩
      (by decide)).1 (by decide) (by decide)).1,
   ((C15_promote_by_policy (fun _ => true) ⟨4, 9⟩ ⟨fun _ => ⟨0, 3, .STRONG_ONLY, 1⟩, []⟩
      (by decide)).2 rfl rfl).1⟩

theorem refheap_inc_dec_weak (m : RefHeap) (refs : Ptr)
    (h1 : 1 ≤ (m refs).weakCount) (h2 : (m refs).weakCount < INT32_MAX) :
    (RefHeap.incWeak refs m refs).weakCount = (m refs).weakCount + 1 ∧
    RefHeap.decWeak refs (RefHeap.incWeak refs m) = m := by
  unfold INT32_MAX at h2
  have e1 : wrap32 ((m refs).weakCount + 1) = (m refs).weakCount + 1 := by
    unfold wrap32; omega
  have e2 : wrap32 ((m refs).weakCount + 1 - 1) = (m refs).weakCount := by
    unfold wrap32; omega
  have e3 : ¬ ((m refs).weakCount + 1 = 1) := by omega
  have e4 : wrap32 (m refs).weakCount = (m refs).weakCount := by
    unfold wrap32; omega
  refine ⟨?_, ?_⟩
  · simp [RefHeap.incWeak, ReferenceBlock.incWeak, android_atomic_inc, e1]
  · funext x
    by_cases hx : x = refs
    · subst hx
      simp [RefHeap.incWeak, RefHeap.decWeak, ReferenceBlock.incWeak, ReferenceBlock.decWeak,
        android_atomic_inc, android_atomic_dec, e1, e2, e3, e4]
    · simp [RefHeap.incWeak, RefHeap.decWeak, Function.update_noteq hx]

/-- C17: every wp assignment acquires the weak reference on the new target
before it releases the old one, and then stores the pointer and the block. The
overloads from T*, U*, sp<T>, sp<U> call createWeak on the new target if it is
non-null (the new block is what createWeak returns, or null), those from wp<T>,
wp<U> and set_object_and_refs call incWeak on the new block if the new pointer
is non-null; then decWeak is called on the previously held block if the old raw
pointer is non-null; then m_ptr and m_refs are stored. In particular the
self-assignment of a non-empty weak handle whose block has weak count n >= 1
takes the count to n + 1 and back to n, never to zero, and leaves the memory
and the handle as they were. -/
theorem C17_wp_assign_order {σ : Type} (W : Weak σ) (self other : wp) (p : Ptr) (r : Run σ)
    (createWeak : Ptr → RefHeap → Ptr × RefHeap) (a : wp) (m : Run RefHeap) :
    (wp.assignPtr W self p r
        = (⟨p, if p ≠ 0 then (W.createWeak p r.mem).1 else 0⟩,
           ⟨if self.m_ptr ≠ 0
              then W.decWeak self.m_refs (if p ≠ 0 then (W.createWeak p r.mem).2 else r.mem)
              else (if p ≠ 0 then (W.createWeak p r.mem).2 else r.mem),
            r.log ++ (if p ≠ 0 then [Event.createWeak p] else [])
              ++ (if self.m_ptr ≠ 0 then [Event.decWeak self.m_refs] else [])
              ++ [Event.store p,
                  Event.storeRefs (if p ≠ 0 then (W.createWeak p r.mem).1 else 0)]⟩) ∧
      wp.assignPtrU W self p r = wp.assignPtr W self p r ∧
      wp.assignSp W self ⟨p⟩ r = wp.assignPtr W self p r ∧
      wp.assignSpU W self ⟨p⟩ r = wp.assignPtr W self p r) ∧
    (wp.assign W self other r
        = (other,
           ⟨if self.m_ptr ≠ 0
              then W.decWeak self.m_refs
                (if other.m_ptr ≠ 0 then W.incWeak other.m_refs r.mem else r.mem)
              else (if other.m_ptr ≠ 0 then W.incWeak other.m_refs r.mem else r.mem),
            r.log ++ (if other.m_ptr ≠ 0 then [Event.incWeak other.m_refs] else [])
              ++ (if self.m_ptr ≠ 0 then [Event.decWeak self.m_refs] else [])
              ++ [Event.store other.m_ptr, Event.storeRefs other.m_refs]⟩) ∧
      wp.assignU W self other r = wp.assign W self other r ∧
      wp.set_object_and_refs W self other.m_ptr other.m_refs r = wp.assign W self other r) ∧
    (a.m_ptr ≠ 0 → 1 ≤ (m.mem a.m_refs).weakCount →
      (m.mem a.m_refs).weakCount < INT32_MAX →
      wp.assign (RefHeap.weak createWeak) a a m
        = (a, ⟨m.mem, m.log ++ [Event.incWeak a.m_refs, Event.decWeak a.m_refs,
            Event.store a.m_ptr, Event.storeRefs a.m_refs]⟩) ∧
      (RefHeap.incWeak a.m_refs m.mem a.m_refs).weakCount
        = (m.mem a.m_refs).weakCount + 1 ∧
      (RefHeap.incWeak a.m_refs m.mem a.m_refs).weakCount ≠ 0) := by
  have h1 := wp_assign_from_target W self p r
  have h2 := wp_assign_from_weak W self other r
  simp only at h1 h2
  refine ⟨⟨h1.1, ?_, ?_, ?_⟩, ⟨h2.1, ?_, ?_⟩, ?_⟩
  · rw [h1.1, h1.2.1]
  · rw [h1.1, h1.2.2.1]
  · rw [h1.1, h1.2.2.2]
  · rw [h2.1, h2.2.1]
  · rw [h2.1, h2.2.2]
  · intro ha hn1 hn2
    obtain ⟨e1, e2⟩ := refheap_inc_dec_weak m.mem a.m_refs hn1 hn2
    refine ⟨?_, e1, ?_⟩
    · simp [wp.assign, ha, Run.incWeak, Run.decWeak, Run.store, Run.storeRefs, RefHeap.weak, e2]
    · rw [e1]; omega

theorem C17_wp_assign_order_witness :
    (RefHeap.incWeak 9 (fun _ => ⟨1, 1, .STRONG_ONLY, 0⟩) 9).weakCount ≠ 0 :=
  ((C17_wp_assign_order (Weak.mk (fun p (m : Nat) => (p, m)) (fun _ m => m) (fun _ m => m))
    ⟨0, 0⟩ ⟨0, 0⟩ 0 ⟨0, []⟩ (fun p m => (p, m)) ⟨4, 9⟩
    ⟨fun _ => ⟨1, 1, .STRONG_ONLY, 0⟩, []⟩).2.2 (by decide) (by decide) (by decide)).2.2

/-- C19 (refuted as stated): when other is the object h already points to, the
one forceIncStrong of h.force_set(other) raises the strong count of the
previous target, so that count is not left unchanged. Here h points to object
5, whose strong count is 1, and h.force_set(5) leaves the count at 2. -/
theorem C19_counterexample :
    ((fun _ => ⟨1, 0, .STRONG_ONLY, 0⟩ : RefHeap) (id 5)).strongCount = 1 ∧
    ((sp.force_set (RefHeap.forceIncStrong id) ⟨5⟩ 5
        ⟨fun _ => ⟨1, 0, .STRONG_ONLY, 0⟩, []⟩).2.mem (id 5)).strongCount = 2 ∧
    ¬ (((sp.force_set (RefHeap.forceIncStrong id) ⟨5⟩ 5
          ⟨fun _ => ⟨1, 0, .STRONG_ONLY, 0⟩, []⟩).2.mem (id 5)).strongCount
        = ((fun _ => ⟨1, 0, .STRONG_ONLY, 0⟩ : RefHeap) (id 5)).strongCount) := by
  decide

/-- C19 (amended): h.force_set(other) calls forceIncStrong on other exactly
once, then makes h point to other, and makes no decStrong call on the target h
held before. With forceIncStrong raising the strong count of other's block by
one, and h non-empty with a previous target that held as many strong counts as
handles pointed to it: if other is another object the previous target's strong
count (its whole block) is left unchanged; if other is the previous target
itself its strong count is raised by one; in both cases it ends one higher than
the number of handles still pointing to the previous target. -/
theorem C19_force_set {σ : Type} (f : Ptr → σ → σ) (h : sp) (other : Ptr) (r : Run σ)
    (mRefs : Ptr → Ptr) (hs : List (Option sp)) (i : Nat) (m : Run RefHeap) :
    sp.force_set f h other r
      = (⟨other⟩, ⟨f other r.mem,
          r.log ++ [Event.forceIncStrong other, Event.store other]⟩) ∧
    (hs[i]? = some (some h) → h.m_ptr ≠ 0 →
      (mRefs other = mRefs h.m_ptr → other = h.m_ptr) →
      (m.mem (mRefs h.m_ptr)).strongCount = hs.count (some h) →
      (m.mem (mRefs h.m_ptr)).strongCount < INT32_MAX →
      (other ≠ h.m_ptr →
        (sp.force_set (RefHeap.forceIncStrong mRefs) h other m).2.mem (mRefs h.m_ptr)
          = m.mem (mRefs h.m_ptr)) ∧
      (other = h.m_ptr →
        ((sp.force_set (RefHeap.forceIncStrong mRefs) h other m).2.mem
            (mRefs h.m_ptr)).strongCount
          = (m.mem (mRefs h.m_ptr)).strongCount + 1) ∧
      ((sp.force_set (RefHeap.forceIncStrong mRefs) h other m).2.mem (mRefs h.m_ptr)).strongCount
        = (hs.set i (some (sp.force_set (RefHeap.forceIncStrong mRefs) h other m).1)).count
            (some h) + 1) := by
  obtain ⟨p⟩ := h
  refine ⟨by simp [sp.force_set, Run.forceIncStrong, Run.store], ?_⟩
  intro hi _ hinj hc hmax
  simp only at hinj hc hmax
  have hset := set_count hs i p other p hi
  simp only [if_true] at hset
  unfold INT32_MAX at hmax
  have hw : wrap32 ((m.mem (mRefs p)).strongCount + 1) = (m.mem (mRefs p)).strongCount + 1 := by
    have hnn : (0 : Int) ≤ (m.mem (mRefs p)).strongCount := by rw [hc]; omega
    unfold wrap32; omega
  have hw2 := hw
  rw [hc] at hw2
  by_cases ho : other = p
  · subst ho
    simp only [if_true] at hset
    refine ⟨fun e => absurd rfl e, fun _ => ?_, ?_⟩
    · simp [sp.force_set, Run.forceIncStrong, Run.store, RefHeap.forceIncStrong,
        ReferenceBlock.forceIncStrong, android_atomic_inc, hw]
    · simp [sp.force_set, Run.forceIncStrong, Run.store, RefHeap.forceIncStrong,
        ReferenceBlock.forceIncStrong, android_atomic_inc, hc, hw2]
      omega
  · have ho2 : ¬ p = other := fun e => ho e.symm
    have hb : mRefs p ≠ mRefs other := fun e => ho (hinj e.symm)
    simp only [ho2, if_false, Nat.add_zero] at hset
    refine ⟨fun _ => ?_, fun e => absurd e ho, ?_⟩
    · simp [sp.force_set, Run.forceIncStrong, Run.store, RefHeap.forceIncStrong,
        Function.update_noteq hb]
    · simp [sp.force_set, Run.forceIncStrong, Run.store, RefHeap.forceIncStrong,
        Function.update_noteq hb, hc]
      omega

theorem C19_force_set_witness :
    ((sp.force_set (RefHeap.forceIncStrong id) ⟨5⟩ 6
        ⟨fun _ => ⟨2, 0, .STRONG_ONLY, 0⟩, []⟩).2.mem 5)
      = (fun _ => ⟨2, 0, .STRONG_ONLY, 0⟩ : RefHeap) 5 ∧
    ((sp.force_set (RefHeap.forceIncStrong id) ⟨5⟩ 5
        ⟨fun _ => ⟨2, 0, .STRONG_ONLY, 0⟩, []⟩).2.mem 5).strongCount
      = ((fun _ => ⟨2, 0, .STRONG_ONLY, 0⟩ : RefHeap) 5).strongCount + 1 :=
  ⟨((C19_force_set (fun _ (m : Nat) => m) ⟨5⟩ 6 ⟨0, []⟩ id [some (sp.mk 5), some (sp.mk 5)] 0
      ⟨fun _ => ⟨2, 0, .STRONG_ONLY, 0⟩, []⟩).2 (by decide) (by decide) (by decide) (by decide)
      (by decide)).1 (by decide),
   ((C19_force_set (fun _ (m : Nat) => m) ⟨5⟩ 5 ⟨0, []⟩ id [some (sp.mk 5), some (sp.mk 5)] 0
      ⟨fun _ => ⟨2, 0, .STRONG_ONLY, 0⟩, []⟩).2 (by decide) (by decide) (by decide) (by decide)
      (by decide)).2.1 rfl⟩

theorem sum_map_set (l : List Thread) (f : Thread → Nat) (t : Nat) (a c : Thread)
    (h : l[t]? = some a) :
    ((l.set t c).map f).sum + f a = (l.map f).sum + f c := by
  induction l generalizing t with
  | nil => simp at h
  | cons x l ih =>
    cases t with
    | zero =>
      simp at h
      subst h
      simp only [List.set_cons_zero, List.map_cons, List.sum_cons]
      omega
    | succ t =>
      simp at h
      have := ih t h
      simp only [List.set_cons_succ, List.map_cons, List.sum_cons]
      omega

theorem race_step_inv (s : Race) (t : Nat) (h : s.Inv) : (s.step t).Inv := by
  obtain ⟨h1, h2, h3⟩ := h
  unfold Race.step
  cases ht : s.threads[t]? with
  | none => exact ⟨h1, h2, h3⟩
  | some th =>
    obtain ⟨rem, seen⟩ := th
    cases seen with
    | some v =>
      have e1 : (Race.mk s.obj (s.threads.set t ⟨rem, none⟩)
            (if v = 1 then s.deleters ++ [t] else s.deleters)).pending + rem
          = s.pending + rem :=
        sum_map_set s.threads (fun th => th.remaining) t ⟨rem, some v⟩ ⟨rem, none⟩ ht
      have e2 : (Race.mk s.obj (s.threads.set t ⟨rem, none⟩)
            (if v = 1 then s.deleters ++ [t] else s.deleters)).aboutToDelete
            + (if some v = some (1 : Int) then 1 else 0)
          = s.aboutToDelete + 0 :=
        sum_map_set s.threads (fun th => if th.seen = some 1 then 1 else 0) t
          ⟨rem, some v⟩ ⟨rem, none⟩ ht
      have e3 : (Race.mk s.obj (s.threads.set t ⟨rem, none⟩)
            (if v = 1 then s.deleters ++ [t] else s.deleters)).pending = s.pending := by
        omega
      refine ⟨?_, ?_, ?_⟩
      · rw [e3]; exact h1
      · rw [e3]; exact h2
      · simp only
        rw [h3.symm]
        by_cases hv : v = 1
        · subst hv
          simp only [if_true, List.length_append, List.length_singleton] at e2 ⊢
          omega
        · have hv2 : ¬ (some v = some (1 : Int)) := fun e => hv (Option.some.inj e)
          simp only [hv, hv2, if_false] at e2 ⊢
          omega
    | none =>
      by_cases hr : rem = 0
      · simp only [hr, if_true]
        exact ⟨h1, h2, h3⟩
      · simp only [hr, if_false, android_atomic_dec]
        have e1 : (Race.mk ⟨s.obj.mCount - 1⟩
              (s.threads.set t ⟨rem - 1, some s.obj.mCount⟩) s.deleters).pending + rem
            = s.pending + (rem - 1) :=
          sum_map_set s.threads (fun th => th.remaining) t ⟨rem, none⟩
            ⟨rem - 1, some s.obj.mCount⟩ ht
        have e2 : (Race.mk ⟨s.obj.mCount - 1⟩
              (s.threads.set t ⟨rem - 1, some s.obj.mCount⟩) s.deleters).aboutToDelete + 0
            = s.aboutToDelete + (if some s.obj.mCount = some (1 : Int) then 1 else 0) :=
          sum_map_set s.threads (fun th => if th.seen = some 1 then 1 else 0) t
            ⟨rem, none⟩ ⟨rem - 1, some s.obj.mCount⟩ ht
        unfold INT32_MAX at h2
        have hpos : 1 ≤ s.obj.mCount := by rw [h1]; omega
        have hw : wrap32 (s.obj.mCount - 1) = s.obj.mCount - 1 := by
          unfold wrap32; omega
        have hne : ¬ (s.obj.mCount = 0) := by omega
        simp only [hne, if_false] at h3
        unfold Race.Inv INT32_MAX
        simp only
        rw [hw]
        refine ⟨by omega, by omega, ?_⟩
        by_cases hc : s.obj.mCount = 1
        · have hz : s.obj.mCount - 1 = 0 := by omega
          have hc3 : some s.obj.mCount = some (1 : Int) := by rw [hc]
          rw [if_pos hc3] at e2
          rw [if_pos hz]
          omega
        · have hz : ¬ (s.obj.mCount - 1 = 0) := by omega
          have hc2 : ¬ (some s.obj.mCount = some (1 : Int)) := fun e => hc (Option.some.inj e)
          rw [if_neg hc2] at e2
          rw [if_neg hz]
          omega

theorem race_run_inv (sched : List Nat) (s : Race) (h : s.Inv) : (s.run sched).Inv := by
  induction sched generalizing s with
  | nil => exact h
  | cons t sched ih => exact ih (s.step t) (race_step_inv s t h)

theorem race_start_inv (ks : List Nat) (h1 : 0 < ks.sum) (h2 : (ks.sum : Int) ≤ INT32_MAX) :
    (Race.start ks).Inv := by
  have e1 : (List.map (fun th : Thread => th.remaining)
      (List.map (fun k => (⟨k, none⟩ : Thread)) ks)).sum = ks.sum := by
    simp [List.map_map, Function.comp_def]
  have e2 : (List.map (fun th : Thread => if th.seen = some 1 then 1 else 0)
      (List.map (fun k => (⟨k, none⟩ : Thread)) ks)).sum = 0 := by
    simp [List.map_map, Function.comp_def]
  unfold Race.Inv Race.pending Race.aboutToDelete Race.start
  simp only [e1, e2]
  refine ⟨trivial, h2, ?_⟩
  have hne : ¬ ((ks.sum : Int) = 0) := by omega
  rw [if_neg hne]
  rfl

theorem sum_zero_of_all_zero (l : List Thread) (f : Thread → Nat)
    (h : ∀ th ∈ l, f th = 0) : (l.map f).sum = 0 := by
  induction l with
  | nil => rfl
  | cons x l ih =>
    simp only [List.map_cons, List.sum_cons]
    rw [h x (List.mem_cons_self _ _), ih (fun th hm => h th (List.mem_cons_of_mem _ hm))]

/-- C16: any number of threads call decStrong on one LightRefBase object, the
total number of releases being the number of acquires made before (at least
one). Every call is an atomic decrement followed, in the same thread, by the
comparison of the value returned with 1. Then in every interleaving of the
steps of the threads at most one thread is returned 1 and runs delete, and when
all threads have made their calls exactly one thread has run delete, exactly
once, and the count is 0. -/
theorem C16_single_delete_under_race (ks sched : List Nat)
    (h1 : 0 < ks.sum) (h2 : (ks.sum : Int) ≤ INT32_MAX) :
    ((Race.start ks).run sched).deleters.length + ((Race.start ks).run sched).aboutToDelete ≤ 1 ∧
    (((Race.start ks).run sched).finished →
      ((Race.start ks).run sched).deleters.length = 1 ∧
      ((Race.start ks).run sched).obj.getStrongCount = 0) := by
  obtain ⟨i1, _, i3⟩ := race_run_inv sched _ (race_start_inv ks h1 h2)
  refine ⟨?_, ?_⟩
  · rw [i3]; split <;> omega
  · intro hf
    have p0 : ((Race.start ks).run sched).pending = 0 :=
      sum_zero_of_all_zero _ _ (fun th hm => (hf th hm).1)
    have a0 : ((Race.start ks).run sched).aboutToDelete = 0 :=
      sum_zero_of_all_zero _ _ (fun th hm => by simp [(hf th hm).2])
    rw [p0] at i1
    rw [a0] at i3
    simp only [Nat.cast_zero] at i1
    simp only [i1, if_true, Nat.add_zero] at i3
    exact ⟨i3, i1⟩

theorem C16_single_delete_under_race_witness :
    ((Race.start [1, 2]).run [0, 1, 1, 0, 1, 1]).deleters = [1] ∧
    ((Race.start [1, 2]).run [0, 1, 1, 0, 1, 1]).deleters.length = 1 :=
  ⟨by decide,
   ((C16_single_delete_under_race [1, 2] [0, 1, 1, 0, 1, 1] (by decide) (by decide)).2
      (by decide)).1⟩

theorem takeWhile_take_nul (l r : List Nat) (n : Nat)
    (h : n ≤ (l.takeWhile (fun c => c != 0)).length) :
    ((l.take n ++ 0 :: r).takeWhile (fun c => c != 0)).length = n := by
  induction l generalizing n with
  | nil =>
    simp at h
    subst h
    simp
  | cons x l ih =>
    cases n with
    | zero => simp
    | succ k =>
      by_cases hx : x = 0
      · subst hx
        simp at h
      · have hx2 : (x != 0) = true := by simpa using hx
        rw [List.takeWhile_cons, if_pos hx2] at h
        simp only [List.length_cons, Nat.add_le_add_iff_right] at h
        simp only [List.take_succ_cons, List.cons_append]
        rw [List.takeWhile_cons, if_pos hx2, List.length_cons, ih k h]

theorem setArgv0_strlen (argv0 newArgv0 : List Nat) (h : 1 ≤ strlen argv0) :
    strlen (setArgv0 argv0 newArgv0) = min (strlen newArgv0) (strlen argv0 - 1) := by
  have h0 : ¬ (strlen argv0 = 0) := by omega
  unfold setArgv0 strlcpy
  simp only [h0, if_false, List.append_assoc, List.singleton_append]
  exact takeWhile_take_nul newArgv0 _ _ (Nat.min_le_left _ _)

/-- C20 (code defect): setArgv0 passes `strlen(argv0)` to strlcpy as the size of
the destination, one less than the storage argv0 occupies (its characters plus
the terminator), so it keeps one character fewer than fits. With argv0 =
"zygote" and newArgv0 = "zygote" the memory at argv0 ends as "zygot": 5
characters, where min(strlen(newArgv0), strlen(argv0)) is 6. -/
theorem C20_setArgv0_drops_last_char :
    setArgv0 [122, 121, 103, 111, 116, 101, 0] [122, 121, 103, 111, 116, 101, 0]
      = [122, 121, 103, 111, 116, 0, 0] ∧
    strlen (setArgv0 [122, 121, 103, 111, 116, 101, 0] [122, 121, 103, 111, 116, 101, 0]) = 5 ∧
    min (strlen [122, 121, 103, 111, 116, 101, 0]) (strlen [122, 121, 103, 111, 116, 101, 0])
      = 6 := by
  decide

end RefBase
